import Mathlib

/-!
Shallow embedding of the shift-scheduling goal-programming model built in
`src/model.ipynb` (docplex notebook).  The notebook creates four variable
families (binary assignment `X`, binary leave `h`, continuous goal-deviation
pairs `d_neg_g`/`d_pos_g`), a linear objective, and the hard and goal
constraint families Equation 6 .. Equation 31, then calls the external solver.

Linear expressions are embedded as ordered term lists with a constant offset,
which is exactly the information docplex accumulates when Python `+`, `-`,
`*` and `model.sum` are applied to variables.
-/

namespace ShiftScheduler

/-- Number of personnel (`n = 80`, notebook cell "Basic params"). -/
def n : Nat := 80

/-- Number of days (`m = 30`, notebook cell "Basic params"). -/
def m : Nat := 30

/-- Number of sections (`s = 7`, notebook cell "Basic params"). -/
def s : Nat := 7

/-- Number of shifts (`t = 2`, notebook cell "Basic params"). -/
def t : Nat := 2

/-- Modelled from the spec: `list_range` is imported from `src/utils.py`,
which is not present under `src/`.  The spec's parameter table (§3, and the
notebook's Parameters cell) declares every index family as `1, 2, ..., bound`,
and every use site (`for i in list_range(n)` etc.) iterates personnel / days /
sections / shifts starting at 1; so `list_range x = [1, 2, ..., x]`. -/
def list_range (x : Nat) : List Nat := (List.range x).map (· + 1)

/-- Python's `range(a, b)`: the list `[a, a+1, ..., b-1]` (empty when `b ≤ a`).
Used by the notebook's `continuous_var_matrix(keys1=range(1, m+1), ...)`
calls. -/
def pyRange (a b : Nat) : List Nat := (List.range (b - a)).map (· + a)

theorem mem_list_range {x a : Nat} : a ∈ list_range x ↔ 1 ≤ a ∧ a ≤ x := by
  simp only [list_range, List.mem_map, List.mem_range]
  constructor
  · rintro ⟨b, hb, rfl⟩; omega
  · rintro ⟨h1, h2⟩; exact ⟨a - 1, by omega, by omega⟩

theorem nodup_list_range (x : Nat) : (list_range x).Nodup :=
  List.Nodup.map (fun _ _ h => by omega) (List.nodup_range x)

theorem length_list_range (x : Nat) : (list_range x).length = x := by
  simp [list_range]

theorem mem_pyRange {a b c : Nat} : c ∈ pyRange a b ↔ a ≤ c ∧ c < b := by
  simp only [pyRange, List.mem_map, List.mem_range]
  constructor
  · rintro ⟨d, hd, rfl⟩; omega
  · rintro ⟨h1, h2⟩; exact ⟨c - a, by omega, by omega⟩

theorem nodup_pyRange (a b : Nat) : (pyRange a b).Nodup :=
  List.Nodup.map (fun _ _ h => by omega) (List.nodup_range (b - a))

theorem length_pyRange (a b : Nat) : (pyRange a b).length = b - a := by
  simp [pyRange]

/-- The variable identities of the model.  One constructor per docplex
variable family of the notebook: `X_{i}_{j}_{k}_{l}` and `h_{i}_{j}` are the
binary dict-comprehension families; `dNeg g a b` / `dPos g a b` are the
`continuous_var_matrix` pairs (`g ∈ {1, 2}` keyed by person/day and
`g ∈ {4, ..., 10}` keyed by day/shift); `dNeg3 i` / `dPos3 i` are the
`continuous_var_list` pair for goal 3, identified by their docplex key
`i ∈ [1, n]` (list position `i - 1`). -/
inductive Var where
  | X (i j k l : Nat)
  | h (i j : Nat)
  | dNeg (g a b : Nat)
  | dPos (g a b : Nat)
  | dNeg3 (i : Nat)
  | dPos3 (i : Nat)
deriving DecidableEq, Repr

/-- docplex variable type of a family (`binary_var` vs `continuous_var_*`). -/
inductive VarKind where
  | binary
  | continuous
deriving DecidableEq, Repr

/-- Comparison operator of a docplex constraint. -/
inductive RelOp where
  | le
  | ge
  | eq
deriving DecidableEq, Repr

/-- A linear expression: ordered list of (variable, coefficient) terms plus a
constant offset, as accumulated by docplex arithmetic. -/
structure LinExpr where
  terms : List (Var × ℚ)
  const : ℚ
deriving DecidableEq, Repr

namespace LinExpr

/-- The expression consisting of a single variable (coefficient 1). -/
def ofVar (v : Var) : LinExpr := ⟨[(v, 1)], 0⟩

/-- A constant expression. -/
def constE (q : ℚ) : LinExpr := ⟨[], q⟩

/-- Python `e + f` on docplex expressions. -/
def add (e f : LinExpr) : LinExpr := ⟨e.terms ++ f.terms, e.const + f.const⟩

/-- Python unary minus on docplex expressions. -/
def neg (e : LinExpr) : LinExpr := ⟨e.terms.map fun p => (p.1, -p.2), -e.const⟩

/-- Python `e - f` on docplex expressions. -/
def sub (e f : LinExpr) : LinExpr := add e (neg f)

/-- Python `e * q` (scalar multiple) on docplex expressions. -/
def smul (q : ℚ) (e : LinExpr) : LinExpr :=
  ⟨e.terms.map fun p => (p.1, q * p.2), q * e.const⟩

/-- `model.sum(...)` over a list of expressions. -/
def sumL (es : List LinExpr) : LinExpr := es.foldr add (constE 0)

/-- The aggregated coefficient of variable `v` in expression `e` (docplex
merges repeated occurrences of a variable by summing the coefficients). -/
def coeff (e : LinExpr) (v : Var) : ℚ :=
  ((e.terms.filter fun p => decide (p.1 = v)).map Prod.snd).sum

@[simp] theorem coeff_ofVar (w v : Var) :
    (ofVar w).coeff v = if w = v then 1 else 0 := by
  by_cases h : w = v <;> simp [ofVar, coeff, List.filter, h]

@[simp] theorem coeff_constE (q : ℚ) (v : Var) : (constE q).coeff v = 0 := by
  simp [constE, coeff]

@[simp] theorem coeff_add (e f : LinExpr) (v : Var) :
    (add e f).coeff v = e.coeff v + f.coeff v := by
  simp [add, coeff, List.filter_append]

@[simp] theorem coeff_neg (e : LinExpr) (v : Var) :
    (neg e).coeff v = -e.coeff v := by
  simp only [neg, coeff, List.filter_map, List.map_map]
  induction e.terms with
  | nil => simp
  | cons p ps ih =>
    by_cases h : p.1 = v <;>
      simp_all [List.filter_cons, Function.comp_def]
    ring

@[simp] theorem coeff_sub (e f : LinExpr) (v : Var) :
    (sub e f).coeff v = e.coeff v - f.coeff v := by
  simp [sub]; ring

@[simp] theorem coeff_smul (q : ℚ) (e : LinExpr) (v : Var) :
    (smul q e).coeff v = q * e.coeff v := by
  simp only [smul, coeff, List.filter_map, List.map_map]
  induction e.terms with
  | nil => simp
  | cons p ps ih =>
    by_cases h : p.1 = v <;>
      simp_all [List.filter_cons, Function.comp_def]
    ring

theorem coeff_sumL (es : List LinExpr) (v : Var) :
    (sumL es).coeff v = (es.map (coeff · v)).sum := by
  induction es with
  | nil => simp [sumL]
  | cons e es ih => simp [sumL, List.foldr_cons, coeff_add] at ih ⊢; simp [ih]

theorem coeff_sumL_map_ofVar {α : Type} (xs : List α) (f : α → Var) (v : Var) :
    (sumL (xs.map fun a => ofVar (f a))).coeff v
      = (xs.map fun a => if f a = v then (1 : ℚ) else 0).sum := by
  rw [coeff_sumL, List.map_map]
  congr 1
  exact List.map_congr_left fun a _ => by simp [Function.comp]

@[simp] theorem const_ofVar (v : Var) : (ofVar v).const = 0 := rfl

@[simp] theorem const_constE (q : ℚ) : (constE q).const = q := rfl

@[simp] theorem const_add (e f : LinExpr) :
    (add e f).const = e.const + f.const := rfl

@[simp] theorem const_neg (e : LinExpr) : (neg e).const = -e.const := rfl

@[simp] theorem const_sub (e f : LinExpr) :
    (sub e f).const = e.const - f.const := by
  simp [sub]; ring

@[simp] theorem const_smul (q : ℚ) (e : LinExpr) :
    (smul q e).const = q * e.const := rfl

theorem const_sumL (es : List LinExpr) :
    (sumL es).const = (es.map const).sum := by
  induction es with
  | nil => simp [sumL, constE]
  | cons e es ih => simp [sumL, List.foldr_cons] at ih ⊢; simp [ih]

end LinExpr

/-- Generic helper: a sum of guarded values is `0` when no list element hits
the guard. -/
theorem sum_ite_of_not_mem {α β : Type} [DecidableEq β]
    (xs : List α) (f : α → β) (c : α → ℚ) (v : β)
    (hv : ∀ a ∈ xs, f a ≠ v) :
    (xs.map fun a => if f a = v then c a else 0).sum = 0 := by
  induction xs with
  | nil => simp
  | cons a xs ih =>
    have ha := hv a (by simp)
    simp only [List.map_cons, List.sum_cons, if_neg ha]
    rw [ih fun b hb => hv b (by simp [hb])]
    ring

/-- Generic helper: a sum of guarded values where exactly the element `a0`
hits the guard evaluates to `c a0`.  Requires the list to have no duplicates
and the key function to be injective on it. -/
theorem sum_ite_single {α β : Type} [DecidableEq β]
    {xs : List α} {f : α → β} (c : α → ℚ) {a0 : α}
    (hnd : xs.Nodup)
    (hinj : ∀ a ∈ xs, ∀ b ∈ xs, f a = f b → a = b)
    (ha0 : a0 ∈ xs) :
    (xs.map fun a => if f a = f a0 then c a else 0).sum = c a0 := by
  induction xs with
  | nil => simp at ha0
  | cons a xs ih =>
    rcases List.mem_cons.mp ha0 with rfl | hmem
    · rw [List.map_cons, List.sum_cons,
        sum_ite_of_not_mem xs f c (f a0)]
      · simp
      · intro b hb hfb
        have := hinj b (by simp [hb]) a0 (by simp) hfb
        subst this
        exact (List.nodup_cons.mp hnd).1 hb
    · have hne : f a ≠ f a0 := by
        intro hfa
        have := hinj a (by simp) a0 (by simp [hmem]) hfa
        subst this
        exact (List.nodup_cons.mp hnd).1 hmem
      simp only [List.map_cons, List.sum_cons, if_neg hne]
      rw [ih (List.nodup_cons.mp hnd).2
        (fun x hx y hy => hinj x (by simp [hx]) y (by simp [hy])) hmem]
      ring

/-! ## Variable space builder

The notebook builds `X` and `h` as dict comprehensions over `list_range`
bounds, the goal-1/2 deviation pairs as `continuous_var_matrix` over
`range(1, n+1) × range(1, m+1)`, the goal-3 pair as `continuous_var_list`
over `range(1, n+1)`, and the goal-4..10 pairs as `continuous_var_matrix`
over `range(1, m+1) × range(1, t+1)` — except `d_neg_6`, whose source line
reads `keys2=range(t+1)`. -/

/-- Index tuples of the `X` dict comprehension (notebook cell `X = {...}`),
in the nested-loop order `for i ... for j ... for k ... for l ...`. -/
def X_keys (N M S T : Nat) : List (Nat × Nat × Nat × Nat) :=
  (list_range N).flatMap fun i =>
    (list_range M).flatMap fun j =>
      (list_range S).flatMap fun k =>
        (list_range T).map fun l => (i, j, k, l)

/-- Index tuples of the `h` dict comprehension (notebook cell `h = {...}`). -/
def h_keys (N M : Nat) : List (Nat × Nat) :=
  (list_range N).flatMap fun i => (list_range M).map fun j => (i, j)

/-- `model.binary_var` is used for every `X` entry. -/
def X_kind : VarKind := .binary

/-- `model.binary_var` is used for every `h` entry. -/
def h_kind : VarKind := .binary

/-- Key pairs of a docplex `continuous_var_matrix(keys1, keys2)` call: the
cartesian product of the two key ranges. -/
def var_matrix_keys (keys1 keys2 : List Nat) : List (Nat × Nat) :=
  keys1.flatMap fun a => keys2.map fun b => (a, b)

/-- Keys of `d_neg_1` / `d_pos_1` / `d_neg_2` / `d_pos_2`:
`keys1=range(1, n+1), keys2=range(1, m+1)`. -/
def personDayKeys : List (Nat × Nat) :=
  var_matrix_keys (pyRange 1 (n + 1)) (pyRange 1 (m + 1))

/-- The goal-3 deviation lists `d_neg_3` / `d_pos_3` are
`continuous_var_list(keys=range(1, n + 1))`; list position `p` holds the
variable with docplex key `p + 1`. -/
def d_neg_3_list : List Var := (pyRange 1 (n + 1)).map Var.dNeg3

/-- See `d_neg_3_list`. -/
def d_pos_3_list : List Var := (pyRange 1 (n + 1)).map Var.dPos3

/-- Keys of the goal-4..10 deviation matrices built with
`keys1=range(1, m+1), keys2=range(1, t+1)` (that is, all of
`d_neg_4 ... d_pos_10` except `d_neg_6`). -/
def dayShiftKeys : List (Nat × Nat) :=
  var_matrix_keys (pyRange 1 (m + 1)) (pyRange 1 (t + 1))

/-- Keys of `d_neg_6`, whose source line reads
`continuous_var_matrix(keys1=range(1, m+1), keys2=range(t+1), ...)`:
the second key range is `range(t+1) = [0, 1, ..., t]`, not
`range(1, t+1)`. -/
def d_neg_6_keys : List (Nat × Nat) :=
  var_matrix_keys (pyRange 1 (m + 1)) (pyRange 0 (t + 1))

theorem var_matrix_keys_eq_product (keys1 keys2 : List Nat) :
    var_matrix_keys keys1 keys2 = keys1 ×ˢ keys2 := rfl

theorem h_keys_eq_product (N M : Nat) :
    h_keys N M = (list_range N) ×ˢ (list_range M) := rfl

theorem X_keys_eq_product (N M S T : Nat) :
    X_keys N M S T
      = (list_range N) ×ˢ ((list_range M) ×ˢ ((list_range S) ×ˢ (list_range T))) := by
  simp [X_keys, SProd.sprod, List.product, List.map_flatMap, List.map_map,
    Function.comp_def]

theorem nodup_X_keys (N M S T : Nat) : (X_keys N M S T).Nodup := by
  rw [X_keys_eq_product]
  exact ((nodup_list_range N).product
    ((nodup_list_range M).product
      ((nodup_list_range S).product (nodup_list_range T))))

theorem nodup_h_keys (N M : Nat) : (h_keys N M).Nodup := by
  rw [h_keys_eq_product]
  exact (nodup_list_range N).product (nodup_list_range M)

theorem mem_X_keys {N M S T i j k l : Nat} :
    (i, j, k, l) ∈ X_keys N M S T
      ↔ (1 ≤ i ∧ i ≤ N) ∧ (1 ≤ j ∧ j ≤ M) ∧ (1 ≤ k ∧ k ≤ S) ∧ (1 ≤ l ∧ l ≤ T) := by
  rw [X_keys_eq_product]
  simp [List.mem_product, mem_list_range]

theorem mem_h_keys {N M i j : Nat} :
    (i, j) ∈ h_keys N M ↔ (1 ≤ i ∧ i ≤ N) ∧ (1 ≤ j ∧ j ≤ M) := by
  rw [h_keys_eq_product]
  simp [List.mem_product, mem_list_range]

theorem mem_var_matrix_keys {keys1 keys2 : List Nat} {a b : Nat} :
    (a, b) ∈ var_matrix_keys keys1 keys2 ↔ a ∈ keys1 ∧ b ∈ keys2 := by
  rw [var_matrix_keys_eq_product]
  exact List.mem_product

/-! ## Variable naming (solver-boundary identifiers)

`X_{i}_{j}_{k}_{l}` and `h_{i}_{j}` come from the notebook's f-strings;
docplex generates `d_neg_g_{key1}_{key2}` for `continuous_var_matrix` and
`d_neg_3_{key}` for `continuous_var_list` from the `name=` arguments. -/

/-- Decimal digit string of a natural number, most significant digit first —
the text Python's f-string interpolation produces for a nonnegative int. -/
def natStr (k : Nat) : String :=
  if k = 0 then "0" else ⟨((Nat.digits 10 k).map Nat.digitChar).reverse⟩

/-- The solver-visible name of each variable, as produced by the notebook's
f-strings and by docplex's default `name_key1_key2` naming of
`continuous_var_matrix` / `continuous_var_list` entries. -/
def varName : Var → String
  | .X i j k l =>
    "X_" ++ natStr i ++ "_" ++ natStr j ++ "_" ++ natStr k ++ "_" ++ natStr l
  | .h i j => "h_" ++ natStr i ++ "_" ++ natStr j
  | .dNeg g a b => "d_neg_" ++ natStr g ++ "_" ++ natStr a ++ "_" ++ natStr b
  | .dPos g a b => "d_pos_" ++ natStr g ++ "_" ++ natStr a ++ "_" ++ natStr b
  | .dNeg3 i => "d_neg_3_" ++ natStr i
  | .dPos3 i => "d_pos_3_" ++ natStr i

/-- Decimal value of a digit-character list, most significant first. -/
def parseNum (cs : List Char) : Nat :=
  cs.foldl (fun a c => 10 * a + (c.toNat - 48)) 0

/-- Split a character list at every underscore (the inverse of joining name
components with `_`). -/
def splitU : List Char → List (List Char)
  | [] => [[]]
  | c :: cs =>
    if c = '_' then [] :: splitU cs
    else
      match splitU cs with
      | [] => [[c]]
      | w :: ws => (c :: w) :: ws

/-- Decode a token list (the `_`-separated components of a variable name)
back into the originating family and index tuple.  Three tokens is an `h`
name, four a goal-3 list name, five either an `X` name or a deviation-matrix
name, discriminated by the leading family tokens. -/
def decodeTokens : List (List Char) → Option Var
  | [f1, a, b] => if f1 = ['h'] then some (.h (parseNum a) (parseNum b)) else none
  | [f1, f2, g, a] =>
    if f1 = ['d'] ∧ f2 = ['n', 'e', 'g'] ∧ g = ['3'] then
      some (.dNeg3 (parseNum a))
    else if f1 = ['d'] ∧ f2 = ['p', 'o', 's'] ∧ g = ['3'] then
      some (.dPos3 (parseNum a))
    else none
  | [f1, a2, a3, a4, a5] =>
    if f1 = ['X'] then
      some (.X (parseNum a2) (parseNum a3) (parseNum a4) (parseNum a5))
    else if f1 = ['d'] ∧ a2 = ['n', 'e', 'g'] then
      some (.dNeg (parseNum a3) (parseNum a4) (parseNum a5))
    else if f1 = ['d'] ∧ a2 = ['p', 'o', 's'] then
      some (.dPos (parseNum a3) (parseNum a4) (parseNum a5))
    else none
  | _ => none

/-- Decode a variable name back into the originating family and tuple. -/
def decodeName (str : String) : Option Var := decodeTokens (splitU str.data)

theorem digitChar_toNat_sub {d : Nat} (hd : d < 10) :
    (Nat.digitChar d).toNat - 48 = d := by
  interval_cases d <;> decide

theorem digitChar_ne_underscore {d : Nat} (hd : d < 10) :
    Nat.digitChar d ≠ '_' := by
  interval_cases d <;> decide

theorem natStr_data_of_ne {k : Nat} (hk : k ≠ 0) :
    (natStr k).data = ((Nat.digits 10 k).map Nat.digitChar).reverse := by
  simp [natStr, hk]

theorem natStr_no_underscore (k : Nat) : ∀ c ∈ (natStr k).data, c ≠ '_' := by
  intro c hc
  by_cases hk : k = 0
  · subst hk
    have hc0 : c = '0' := by simpa [natStr] using hc
    subst hc0; decide
  · rw [natStr_data_of_ne hk] at hc
    rw [List.mem_reverse, List.mem_map] at hc
    obtain ⟨d, hd, rfl⟩ := hc
    exact digitChar_ne_underscore (Nat.digits_lt_base (by norm_num) hd)

theorem foldr_digits_eq_ofDigits (ds : List Nat) (hd : ∀ d ∈ ds, d < 10) :
    ds.foldr (fun d a => 10 * a + ((Nat.digitChar d).toNat - 48)) 0
      = Nat.ofDigits 10 ds := by
  induction ds with
  | nil => simp [Nat.ofDigits]
  | cons d ds ih =>
    rw [List.foldr_cons, ih fun x hx => hd x (by simp [hx]),
      digitChar_toNat_sub (hd d (by simp)), Nat.ofDigits_cons]
    omega

theorem parseNum_natStr (k : Nat) : parseNum (natStr k).data = k := by
  by_cases hk : k = 0
  · subst hk; decide
  · rw [natStr_data_of_ne hk]
    unfold parseNum
    rw [List.foldl_reverse, List.foldr_map]
    rw [foldr_digits_eq_ofDigits _ fun d hd =>
      Nat.digits_lt_base (by norm_num) hd]
    exact_mod_cast Nat.ofDigits_digits 10 k

theorem splitU_no_underscore (xs : List Char) (hx : ∀ c ∈ xs, c ≠ '_') :
    splitU xs = [xs] := by
  induction xs with
  | nil => rfl
  | cons c cs ih =>
    have hc : c ≠ '_' := hx c (by simp)
    rw [splitU, if_neg hc, ih fun d hd => hx d (by simp [hd])]

theorem splitU_append_underscore (xs ys : List Char)
    (hx : ∀ c ∈ xs, c ≠ '_') :
    splitU (xs ++ '_' :: ys) = xs :: splitU ys := by
  induction xs with
  | nil => simp [splitU]
  | cons c cs ih =>
    have hc : c ≠ '_' := hx c (by simp)
    rw [List.cons_append, splitU, if_neg hc,
      ih fun d hd => hx d (by simp [hd])]

theorem decode_varName (v : Var) : decodeName (varName v) = some v := by
  cases v with
  | X i j k l =>
    have hdata : (varName (Var.X i j k l)).data
        = ['X'] ++ '_' :: ((natStr i).data ++ '_' :: ((natStr j).data
            ++ '_' :: ((natStr k).data ++ '_' :: (natStr l).data))) := by
      simp [varName, String.data_append]
    rw [decodeName, hdata,
      splitU_append_underscore _ _ (by decide),
      splitU_append_underscore _ _ (natStr_no_underscore i),
      splitU_append_underscore _ _ (natStr_no_underscore j),
      splitU_append_underscore _ _ (natStr_no_underscore k),
      splitU_no_underscore _ (natStr_no_underscore l)]
    simp [decodeTokens, parseNum_natStr]
  | h i j =>
    have hdata : (varName (Var.h i j)).data
        = ['h'] ++ '_' :: ((natStr i).data ++ '_' :: (natStr j).data) := by
      simp [varName, String.data_append]
    rw [decodeName, hdata,
      splitU_append_underscore _ _ (by decide),
      splitU_append_underscore _ _ (natStr_no_underscore i),
      splitU_no_underscore _ (natStr_no_underscore j)]
    simp [decodeTokens, parseNum_natStr]
  | dNeg g a b =>
    have hdata : (varName (Var.dNeg g a b)).data
        = ['d'] ++ '_' :: (['n', 'e', 'g'] ++ '_' :: ((natStr g).data
            ++ '_' :: ((natStr a).data ++ '_' :: (natStr b).data))) := by
      simp [varName, String.data_append]
    rw [decodeName, hdata,
      splitU_append_underscore _ _ (by decide),
      splitU_append_underscore _ _ (by decide),
      splitU_append_underscore _ _ (natStr_no_underscore g),
      splitU_append_underscore _ _ (natStr_no_underscore a),
      splitU_no_underscore _ (natStr_no_underscore b)]
    simp [decodeTokens, parseNum_natStr]
  | dPos g a b =>
    have hdata : (varName (Var.dPos g a b)).data
        = ['d'] ++ '_' :: (['p', 'o', 's'] ++ '_' :: ((natStr g).data
            ++ '_' :: ((natStr a).data ++ '_' :: (natStr b).data))) := by
      simp [varName, String.data_append]
    rw [decodeName, hdata,
      splitU_append_underscore _ _ (by decide),
      splitU_append_underscore _ _ (by decide),
      splitU_append_underscore _ _ (natStr_no_underscore g),
      splitU_append_underscore _ _ (natStr_no_underscore a),
      splitU_no_underscore _ (natStr_no_underscore b)]
    simp [decodeTokens, parseNum_natStr]
  | dNeg3 i =>
    have hdata : (varName (Var.dNeg3 i)).data
        = ['d'] ++ '_' :: (['n', 'e', 'g'] ++ '_' :: (['3']
            ++ '_' :: (natStr i).data)) := by
      simp [varName, String.data_append]
    rw [decodeName, hdata,
      splitU_append_underscore _ _ (by decide),
      splitU_append_underscore _ _ (by decide),
      splitU_append_underscore _ _ (by decide),
      splitU_no_underscore _ (natStr_no_underscore i)]
    simp [decodeTokens, parseNum_natStr]
  | dPos3 i =>
    have hdata : (varName (Var.dPos3 i)).data
        = ['d'] ++ '_' :: (['p', 'o', 's'] ++ '_' :: (['3']
            ++ '_' :: (natStr i).data)) := by
      simp [varName, String.data_append]
    rw [decodeName, hdata,
      splitU_append_underscore _ _ (by decide),
      splitU_append_underscore _ _ (by decide),
      splitU_append_underscore _ _ (by decide),
      splitU_no_underscore _ (natStr_no_underscore i)]
    simp [decodeTokens, parseNum_natStr]

/-! ## Constraint generator

One Lean definition per notebook constraint cell; `*_con` is the single
constraint added for given loop indices, `*_cell` the list the cell's loops
add, in loop order. -/

/-- A docplex linear constraint `lhs rel rhs` as passed to
`model.add_constraint`. -/
structure Constraint where
  lhs : LinExpr
  rel : RelOp
  rhs : LinExpr
deriving DecidableEq, Repr

/-- The coverage constraint shape of Equations 6-12:
`model.sum(X[i, j, ksum, l] for i in list_range(n)) == req`. -/
def coverageCon (ksum : Nat) (req : ℚ) (j l : Nat) : Constraint :=
  { lhs := LinExpr.sumL ((list_range n).map fun i =>
      LinExpr.ofVar (Var.X i j ksum l))
    rel := .eq
    rhs := LinExpr.constE req }

/-- The `for j ... for l ...` loops of a coverage cell. -/
def coverageCell (ksum : Nat) (req : ℚ) : List Constraint :=
  (list_range m).flatMap fun j =>
    (list_range t).map fun l => coverageCon ksum req j l

/-- `Equation_6_Personnel_Requirement_Section_1`: sums `X[i, j, 1, l]`,
right-hand side 3. -/
def Equation_6_cell : List Constraint := coverageCell 1 3

/-- `Equation_7_Personnel_Requirement_Section_2`: sums `X[i, j, 2, l]`,
right-hand side 4. -/
def Equation_7_cell : List Constraint := coverageCell 2 4

/-- `Equation_8_Personnel_Requirement_Section_3`: sums `X[i, j, 3, l]`,
right-hand side 4. -/
def Equation_8_cell : List Constraint := coverageCell 3 4

/-- `Equation_9_Personnel_Requirement_Section_4`: the source line sums
`X[i, j, 3, l]` — section 3, not 4 — with right-hand side 4. -/
def Equation_9_cell : List Constraint := coverageCell 3 4

/-- `Equation_10_Personnel_Requirement_Section_5`: sums `X[i, j, 5, l]`,
right-hand side 6. -/
def Equation_10_cell : List Constraint := coverageCell 5 6

/-- `Equation_11_Personnel_Requirement_Section_6`: sums `X[i, j, 6, l]`,
right-hand side 8. -/
def Equation_11_cell : List Constraint := coverageCell 6 8

/-- `Equation_12_Personnel_Requirement_Section_7`: sums `X[i, j, 7, l]`,
right-hand side 5. -/
def Equation_12_cell : List Constraint := coverageCell 7 5

/-- `Equation_13_Single_Shift_Per_Day_{i}_{j}`:
`model.sum(X[i, j, k, l] for k in list_range(s) for l in list_range(t)) <= 1`. -/
def Equation_13_con (i j : Nat) : Constraint :=
  { lhs := LinExpr.sumL ((list_range s).flatMap fun k =>
      (list_range t).map fun l => LinExpr.ofVar (Var.X i j k l))
    rel := .le
    rhs := LinExpr.constE 1 }

/-- Loops of the Equation 13 cell. -/
def Equation_13_cell : List Constraint :=
  (list_range n).flatMap fun i =>
    (list_range m).map fun j => Equation_13_con i j

/-- `Equation_14_No_Work_On_Vacation_{i}_{j}`: same left-hand sum as
Equation 13, right-hand side `1 - h[i, j]`. -/
def Equation_14_con (i j : Nat) : Constraint :=
  { lhs := LinExpr.sumL ((list_range s).flatMap fun k =>
      (list_range t).map fun l => LinExpr.ofVar (Var.X i j k l))
    rel := .le
    rhs := LinExpr.sub (LinExpr.constE 1) (LinExpr.ofVar (Var.h i j)) }

/-- Loops of the Equation 14 cell. -/
def Equation_14_cell : List Constraint :=
  (list_range n).flatMap fun i =>
    (list_range m).map fun j => Equation_14_con i j

/-- `Equation_15_Max_2_Vacations_7_Days_{i}_{j}`:
`model.sum(h[i, j + d] for d in range(7)) <= 2`. -/
def Equation_15_con (i j : Nat) : Constraint :=
  { lhs := LinExpr.sumL ((List.range 7).map fun d =>
      LinExpr.ofVar (Var.h i (j + d)))
    rel := .le
    rhs := LinExpr.constE 2 }

/-- `Equation_16_Min_1_Vacation_7_Days_{i}_{j}`:
`model.sum(h[i, j + d] for d in range(7)) >= 1`. -/
def Equation_16_con (i j : Nat) : Constraint :=
  { lhs := LinExpr.sumL ((List.range 7).map fun d =>
      LinExpr.ofVar (Var.h i (j + d)))
    rel := .ge
    rhs := LinExpr.constE 1 }

/-- The cell `for i in list_range(n): for j in list_range(m - 6):` adds the
Equation 15 and Equation 16 constraints for every window start. -/
def Equations_15_16_cell : List Constraint :=
  (list_range n).flatMap fun i =>
    (list_range (m - 6)).flatMap fun j =>
      [Equation_15_con i j, Equation_16_con i j]

/-- `Equation_17_Max_Shift_1_Assignments_{i}`:
`model.sum(X[i, j, k, 1] for j in list_range(m) for k in list_range(s)) <= 12`. -/
def Equation_17_con (i : Nat) : Constraint :=
  { lhs := LinExpr.sumL ((list_range m).flatMap fun j =>
      (list_range s).map fun k => LinExpr.ofVar (Var.X i j k 1))
    rel := .le
    rhs := LinExpr.constE 12 }

/-- `Equation_18_Max_Shift_2_Assignments_{i}`: same for shift 2. -/
def Equation_18_con (i : Nat) : Constraint :=
  { lhs := LinExpr.sumL ((list_range m).flatMap fun j =>
      (list_range s).map fun k => LinExpr.ofVar (Var.X i j k 2))
    rel := .le
    rhs := LinExpr.constE 12 }

/-- Loops of the Equation 17/18 cell. -/
def Equations_17_18_cell : List Constraint :=
  (list_range n).flatMap fun i => [Equation_17_con i, Equation_18_con i]

/-- `Equation_19_Min_Shift_1_Assignments_{i}`: the shift-1 sum `>= 10`. -/
def Equation_19_con (i : Nat) : Constraint :=
  { lhs := LinExpr.sumL ((list_range m).flatMap fun j =>
      (list_range s).map fun k => LinExpr.ofVar (Var.X i j k 1))
    rel := .ge
    rhs := LinExpr.constE 10 }

/-- `Equation_20_Min_Shift_2_Assignments_{i}`: the shift-2 sum `>= 10`. -/
def Equation_20_con (i : Nat) : Constraint :=
  { lhs := LinExpr.sumL ((list_range m).flatMap fun j =>
      (list_range s).map fun k => LinExpr.ofVar (Var.X i j k 2))
    rel := .ge
    rhs := LinExpr.constE 10 }

/-- Loops of the Equation 19/20 cell. -/
def Equations_19_20_cell : List Constraint :=
  (list_range n).flatMap fun i => [Equation_19_con i, Equation_20_con i]

/-- `Equation_21_No_Night_To_Morning_Consecutive_Shift_{i}_{j}`:
`sum_k X[i, j, k, 2] + sum_k X[i, j+1, k, 1] <= 1`. -/
def Equation_21_con (i j : Nat) : Constraint :=
  { lhs := LinExpr.add
      (LinExpr.sumL ((list_range s).map fun k =>
        LinExpr.ofVar (Var.X i j k 2)))
      (LinExpr.sumL ((list_range s).map fun k =>
        LinExpr.ofVar (Var.X i (j + 1) k 1)))
    rel := .le
    rhs := LinExpr.constE 1 }

/-- Loops of the Equation 21 cell (`for j in list_range(m - 1)`). -/
def Equation_21_cell : List Constraint :=
  (list_range n).flatMap fun i =>
    (list_range (m - 1)).map fun j => Equation_21_con i j

/-- `Goal_Constraint_Equation_22_{i}_{j}`:
`h[i,j] + sum_{k,l} X[i,j+1,k,l] + h[i,j+2] + d_neg_1[i,j] - d_pos_1[i,j] == 2`. -/
def Equation_22_con (i j : Nat) : Constraint :=
  { lhs := LinExpr.sub
      (LinExpr.add
        (LinExpr.add
          (LinExpr.add (LinExpr.ofVar (Var.h i j))
            (LinExpr.sumL ((list_range s).flatMap fun k =>
              (list_range t).map fun l => LinExpr.ofVar (Var.X i (j + 1) k l))))
          (LinExpr.ofVar (Var.h i (j + 2))))
        (LinExpr.ofVar (Var.dNeg 1 i j)))
      (LinExpr.ofVar (Var.dPos 1 i j))
    rel := .eq
    rhs := LinExpr.constE 2 }

/-- Loops of the Equation 22 cell (`for j in list_range(m - 2)`). -/
def Equation_22_cell : List Constraint :=
  (list_range n).flatMap fun i =>
    (list_range (m - 2)).map fun j => Equation_22_con i j

/-- `Goal_Constraint_Equation_23_{i}_{j}`:
`sum_{k,l} X[i,j,k,l] + h[i,j+1] + sum_{k,l} X[i,j+1,k,l]
 + d_neg_2[i,j] - d_pos_2[i,j] == 2`. -/
def Equation_23_con (i j : Nat) : Constraint :=
  { lhs := LinExpr.sub
      (LinExpr.add
        (LinExpr.add
          (LinExpr.add
            (LinExpr.sumL ((list_range s).flatMap fun k =>
              (list_range t).map fun l => LinExpr.ofVar (Var.X i j k l)))
            (LinExpr.ofVar (Var.h i (j + 1))))
          (LinExpr.sumL ((list_range s).flatMap fun k =>
            (list_range t).map fun l => LinExpr.ofVar (Var.X i (j + 1) k l))))
        (LinExpr.ofVar (Var.dNeg 2 i j)))
      (LinExpr.ofVar (Var.dPos 2 i j))
    rel := .eq
    rhs := LinExpr.constE 2 }

/-- Loops of the Equation 23 cell (`for j in list_range(m - 2)`). -/
def Equation_23_cell : List Constraint :=
  (list_range n).flatMap fun i =>
    (list_range (m - 2)).map fun j => Equation_23_con i j

/-- `Goal_Constraint_Equation_24_{i}`:
`sum_{j,k,l} X[i,j,k,l] + d_neg_3[i-1] - d_pos_3[i-1] == 22`
(`d_neg_3[i-1]` is Python list indexing: position `i - 1` of the goal-3
variable list, i.e. the variable with docplex key `i`). -/
def Equation_24_con (i : Nat) : Constraint :=
  { lhs := LinExpr.sub
      (LinExpr.add
        (LinExpr.sumL ((list_range m).flatMap fun j =>
          (list_range s).flatMap fun k =>
            (list_range t).map fun l => LinExpr.ofVar (Var.X i j k l)))
        (LinExpr.ofVar (d_neg_3_list.getD (i - 1) (Var.dNeg3 0))))
      (LinExpr.ofVar (d_pos_3_list.getD (i - 1) (Var.dPos3 0)))
    rel := .eq
    rhs := LinExpr.constE 22 }

/-- Loops of the Equation 24 cell. -/
def Equation_24_cell : List Constraint :=
  (list_range n).map Equation_24_con

/-- `person_competency(person_id, section_id)` from the notebook:
`competency.get(person_id).get(section_id)`.  The competency table itself is
loaded externally from an Excel file and is abstracted as a two-level
partial lookup.  A missing person makes `competency.get(...)` return `None`
and the chained `.get` raise; a missing section returns `None`, which
docplex rejects when it is used as a multiplier; either way the constraint
cell fails, embedded here as `none`. -/
def person_competency (competency : Nat → Option (Nat → Option ℚ))
    (person_id section_id : Nat) : Option ℚ :=
  (competency person_id).bind fun row => row section_id

/-- One summand `X[i, j, ksec, l] * person_competency(i, ksec)` of an
Equation 25-31 sum; construction fails on a missing score. -/
def qualityTerm (pc : Nat → Nat → Option ℚ) (i j ksec l : Nat) :
    Except Unit LinExpr :=
  match pc i ksec with
  | some q => .ok (LinExpr.smul q (LinExpr.ofVar (Var.X i j ksec l)))
  | none => .error ()

/-- The Equation 25-31 goal constraint at day `j`, shift `l` for section
`ksec` with deviation pair `gidx` and target `target`:
`model.sum(X[i,j,ksec,l] * person_competency(i, ksec) for i in list_range(n))
 + d_neg_gidx[j,l] - d_pos_gidx[j,l] == target`. -/
def qualityCon (pc : Nat → Nat → Option ℚ) (ksec gidx : Nat) (target : ℚ)
    (j l : Nat) : Except Unit Constraint :=
  ((list_range n).mapM fun i => qualityTerm pc i j ksec l).map fun terms =>
    { lhs := LinExpr.sub
        (LinExpr.add (LinExpr.sumL terms) (LinExpr.ofVar (Var.dNeg gidx j l)))
        (LinExpr.ofVar (Var.dPos gidx j l))
      rel := .eq
      rhs := LinExpr.constE target }

/-- The `for j in list_range(m): for l in list_range(t):` loop order shared
by the Equation 25-31 cells (and the goal 4-10 objective sums). -/
def dayShiftPairs : List (Nat × Nat) :=
  (list_range m).flatMap fun j => (list_range t).map fun l => (j, l)

/-- `Equation_25_{j}_{l}`: section 1, deviation pair 4, target 3. -/
def Equation_25_cell (pc : Nat → Nat → Option ℚ) :
    Except Unit (List Constraint) :=
  dayShiftPairs.mapM fun p => qualityCon pc 1 4 3 p.1 p.2

/-- `Equation_26_{j}_{l}`: section 2, deviation pair 5, target 4. -/
def Equation_26_cell (pc : Nat → Nat → Option ℚ) :
    Except Unit (List Constraint) :=
  dayShiftPairs.mapM fun p => qualityCon pc 2 5 4 p.1 p.2

/-- `Equation_27_{j}_{l}`: section 3, deviation pair 6, target 4. -/
def Equation_27_cell (pc : Nat → Nat → Option ℚ) :
    Except Unit (List Constraint) :=
  dayShiftPairs.mapM fun p => qualityCon pc 3 6 4 p.1 p.2

/-- `Equation_28_{j}_{l}`: section 4, deviation pair 7, target 4. -/
def Equation_28_cell (pc : Nat → Nat → Option ℚ) :
    Except Unit (List Constraint) :=
  dayShiftPairs.mapM fun p => qualityCon pc 4 7 4 p.1 p.2

/-- `Equation_29_{j}_{l}`: section 5, deviation pair 8, target 6. -/
def Equation_29_cell (pc : Nat → Nat → Option ℚ) :
    Except Unit (List Constraint) :=
  dayShiftPairs.mapM fun p => qualityCon pc 5 8 6 p.1 p.2

/-- `Equation_30_{j}_{l}`: section 6, deviation pair 9, target 8. -/
def Equation_30_cell (pc : Nat → Nat → Option ℚ) :
    Except Unit (List Constraint) :=
  dayShiftPairs.mapM fun p => qualityCon pc 6 9 8 p.1 p.2

/-- `Equation_31_{j}_{l}`: section 7, deviation pair 10, target 5. -/
def Equation_31_cell (pc : Nat → Nat → Option ℚ) :
    Except Unit (List Constraint) :=
  dayShiftPairs.mapM fun p => qualityCon pc 7 10 5 p.1 p.2

/-! ## Objective assembler (notebook cell `model.minimize(...)`) -/

/-- The `for i in list_range(n) for j in list_range(m)` generator order of
the goal-1 and goal-2 objective sums. -/
def personDayPairs : List (Nat × Nat) :=
  (list_range n).flatMap fun i => (list_range m).map fun j => (i, j)

/-- `model.sum(d_neg_1[i, j] + d_pos_1[i, j] for i ... for j ...)`. -/
def objGoal1 : LinExpr :=
  LinExpr.sumL (personDayPairs.map fun p =>
    LinExpr.add (LinExpr.ofVar (Var.dNeg 1 p.1 p.2))
      (LinExpr.ofVar (Var.dPos 1 p.1 p.2)))

/-- `model.sum(d_neg_2[i, j] + d_pos_2[i, j] for i ... for j ...)`. -/
def objGoal2 : LinExpr :=
  LinExpr.sumL (personDayPairs.map fun p =>
    LinExpr.add (LinExpr.ofVar (Var.dNeg 2 p.1 p.2))
      (LinExpr.ofVar (Var.dPos 2 p.1 p.2)))

/-- `model.sum(d_neg_3[i] + d_pos_3[i] for i in range(0, n))` — Python list
positions `0 .. n-1`. -/
def objGoal3 : LinExpr :=
  LinExpr.sumL ((pyRange 0 n).map fun p =>
    LinExpr.add (LinExpr.ofVar (d_neg_3_list.getD p (Var.dNeg3 0)))
      (LinExpr.ofVar (d_pos_3_list.getD p (Var.dPos3 0))))

/-- `model.sum(d_pos_g[j, l] for j in list_range(m) for l in list_range(t))`,
the shape of each of the seven goal-4..10 objective summands. -/
def objGoalPos (g : Nat) : LinExpr :=
  LinExpr.sumL (dayShiftPairs.map fun p => LinExpr.ofVar (Var.dPos g p.1 p.2))

/-- The scalar objective passed to `model.minimize`: the Python `+` chain of
the ten sums, left associated. -/
def objective : LinExpr :=
  LinExpr.add
    (LinExpr.add
      (LinExpr.add
        (LinExpr.add
          (LinExpr.add
            (LinExpr.add
              (LinExpr.add
                (LinExpr.add
                  (LinExpr.add objGoal1 objGoal2)
                  objGoal3)
                (objGoalPos 4))
              (objGoalPos 5))
            (objGoalPos 6))
          (objGoalPos 7))
        (objGoalPos 8))
      (objGoalPos 9))
    (objGoalPos 10)

/-- Optimization sense of the model. -/
inductive ObjSense where
  | minimize
  | maximize
deriving DecidableEq, Repr

/-- The notebook calls `model.minimize(...)`. -/
def modelSense : ObjSense := .minimize

/-! ## Model assembly and solve pipeline -/

/-- The constraints of the cells that never consult the competency lookup
(Equations 6-24), concatenated in notebook order. -/
def fixedConstraints : List Constraint :=
  Equation_6_cell ++ Equation_7_cell ++ Equation_8_cell ++ Equation_9_cell ++
    Equation_10_cell ++ Equation_11_cell ++ Equation_12_cell ++
    Equation_13_cell ++ Equation_14_cell ++ Equations_15_16_cell ++
    Equations_17_18_cell ++ Equations_19_20_cell ++ Equation_21_cell ++
    Equation_22_cell ++ Equation_23_cell ++ Equation_24_cell

/-- Full model construction: every constraint cell in notebook order.  The
Equation 25-31 cells interrogate the competency lookup and abort the run
(Python exception) on a missing score, before any solve. -/
def build (competency : Nat → Option (Nat → Option ℚ)) :
    Except Unit (List Constraint) := do
  let e25 ← Equation_25_cell (person_competency competency)
  let e26 ← Equation_26_cell (person_competency competency)
  let e27 ← Equation_27_cell (person_competency competency)
  let e28 ← Equation_28_cell (person_competency competency)
  let e29 ← Equation_29_cell (person_competency competency)
  let e30 ← Equation_30_cell (person_competency competency)
  let e31 ← Equation_31_cell (person_competency competency)
  return fixedConstraints ++ e25 ++ e26 ++ e27 ++ e28 ++ e29 ++ e30 ++ e31

/-- Terminal answers of the opaque solver oracle (`model.solve()` returning
a solution object or `None`). -/
inductive SolveOutcome where
  | solved (objectiveValue : ℚ) (valuesByVariable : Var → ℚ)
  | noSolution

/-- The end-to-end run of the notebook: build the model, then (only when
construction succeeded) consult the opaque solver on it. -/
def runPipeline (competency : Nat → Option (Nat → Option ℚ))
    (solver : List Constraint → ObjSense → LinExpr → SolveOutcome) :
    Except Unit SolveOutcome :=
  (build competency).map fun cs => solver cs modelSense objective

/-! ## Workhorse lemmas about coefficient extraction -/

theorem coeff_sumL_ofVar_of_not_mem {α : Type} {xs : List α} {f : α → Var}
    {v : Var} (hv : ∀ a ∈ xs, f a ≠ v) :
    (LinExpr.sumL (xs.map fun a => LinExpr.ofVar (f a))).coeff v = 0 := by
  rw [LinExpr.coeff_sumL_map_ofVar]
  exact sum_ite_of_not_mem xs f (fun _ => 1) v hv

theorem coeff_sumL_ofVar_of_mem {α : Type} {xs : List α} {f : α → Var}
    {a0 : α} (hnd : xs.Nodup)
    (hinj : ∀ a ∈ xs, ∀ b ∈ xs, f a = f b → a = b) (ha0 : a0 ∈ xs) :
    (LinExpr.sumL (xs.map fun a => LinExpr.ofVar (f a))).coeff (f a0) = 1 := by
  rw [LinExpr.coeff_sumL_map_ofVar]
  exact sum_ite_single (fun _ => 1) hnd hinj ha0

theorem flatMap_map_eq_map_pairs {γ : Type} (xs ys : List Nat)
    (g : Nat → Nat → γ) :
    (xs.flatMap fun a => ys.map fun b => g a b)
      = (var_matrix_keys xs ys).map fun p => g p.1 p.2 := by
  simp [var_matrix_keys, List.map_flatMap, List.map_map, Function.comp_def]

theorem triples_eq_product (xs ys zs : List Nat) :
    (xs.flatMap fun a => ys.flatMap fun b => zs.map fun c => (a, b, c))
      = xs ×ˢ (ys ×ˢ zs) := by
  simp [SProd.sprod, List.product, List.map_flatMap, List.map_map,
    Function.comp_def]

theorem flatMap3_map_eq_map_triples {γ : Type} (xs ys zs : List Nat)
    (g : Nat → Nat → Nat → γ) :
    (xs.flatMap fun a => ys.flatMap fun b => zs.map fun c => g a b c)
      = ((xs.flatMap fun a => ys.flatMap fun b => zs.map fun c => (a, b, c)).map
          fun q => g q.1 q.2.1 q.2.2) := by
  simp [List.map_flatMap, List.map_map, Function.comp_def]

theorem nodup_var_matrix_keys {keys1 keys2 : List Nat}
    (h1 : keys1.Nodup) (h2 : keys2.Nodup) :
    (var_matrix_keys keys1 keys2).Nodup := by
  rw [var_matrix_keys_eq_product]
  exact h1.product h2

theorem d_neg_3_list_getD {p : Nat} (hp : p < n) :
    d_neg_3_list.getD p (Var.dNeg3 0) = Var.dNeg3 (p + 1) := by
  simp [d_neg_3_list, pyRange, List.getD_eq_getElem?_getD, List.getElem?_map,
    List.getElem?_range, hp]

theorem d_pos_3_list_getD {p : Nat} (hp : p < n) :
    d_pos_3_list.getD p (Var.dPos3 0) = Var.dPos3 (p + 1) := by
  simp [d_pos_3_list, pyRange, List.getD_eq_getElem?_getD, List.getElem?_map,
    List.getElem?_range, hp]

/-- Coefficient of an arbitrary `X` variable in a coverage constraint. -/
theorem coverageCon_coeff_X (ksum : Nat) (req : ℚ) (j l i0 j0 k0 l0 : Nat) :
    (coverageCon ksum req j l).lhs.coeff (Var.X i0 j0 k0 l0)
      = if 1 ≤ i0 ∧ i0 ≤ n ∧ j0 = j ∧ k0 = ksum ∧ l0 = l then 1 else 0 := by
  by_cases hcond : 1 ≤ i0 ∧ i0 ≤ n ∧ j0 = j ∧ k0 = ksum ∧ l0 = l
  · obtain ⟨h1, h2, rfl, rfl, rfl⟩ := hcond
    rw [if_pos ⟨h1, h2, rfl, rfl, rfl⟩]
    exact coeff_sumL_ofVar_of_mem (nodup_list_range n)
      (fun a _ b _ hab => by injection hab)
      (mem_list_range.mpr ⟨h1, h2⟩)
  · rw [if_neg hcond]
    refine coeff_sumL_ofVar_of_not_mem fun a ha hfa => hcond ?_
    obtain ⟨h1, h2⟩ := mem_list_range.mp ha
    injection hfa with e1 e2 e3 e4
    exact ⟨by omega, by omega, e2.symm, e3.symm, e4.symm⟩

/-- C1 (code bug): the cell named `Equation_9_Personnel_Requirement_Section_4`
does not sum the section-4 assignment variables: it is the very same
`coverageCell 3 4` as the section-3 cell, its day-1/shift-1 constraint gives
coefficient 1 to the section-3 variable `X(1,1,3,1)` and coefficient 0 to
every section-4 variable `X(i,1,4,1)`, contradicting both the spec's coverage
clause and the cell's own name and markdown (which state
`sum_i X_{ij4l} = 4`). -/
theorem C1_section4_coverage_sums_section3 :
    Equation_9_cell = Equation_8_cell ∧
    Equation_9_cell = coverageCell 3 4 ∧
    (coverageCon 3 4 1 1).lhs.coeff (Var.X 1 1 3 1) = 1 ∧
    (∀ i0, (coverageCon 3 4 1 1).lhs.coeff (Var.X i0 1 4 1) = 0) ∧
    (coverageCon 3 4 1 1).rhs = LinExpr.constE 4 ∧
    Equation_9_cell.head? = some (coverageCon 3 4 1 1) := by
  refine ⟨rfl, rfl, ?_, ?_, rfl, ?_⟩
  · rw [coverageCon_coeff_X]
    norm_num [n]
  · intro i0
    rw [coverageCon_coeff_X]
    norm_num
  · rfl

/-- C2 (code bug): `d_neg_6` is built with `keys2=range(t+1)`, so the
out-of-range key pair `(1, 0)` — shift index 0, below the declared shift
domain `[1, t]` — receives a variable, while every other day/shift deviation
matrix uses `keys2=range(1, t+1)`. -/
theorem C2_dNeg6_key_out_of_range :
    ((1, 0) : Nat × Nat) ∈ d_neg_6_keys ∧
    ¬ (1 ≤ (0 : Nat) ∧ (0 : Nat) ≤ t) ∧
    ((1, 0) : Nat × Nat) ∉ dayShiftKeys := by
  refine ⟨?_, by decide, ?_⟩
  · rw [d_neg_6_keys, mem_var_matrix_keys, mem_pyRange, mem_pyRange]
    exact ⟨⟨by norm_num, by norm_num [m]⟩, by norm_num⟩
  · rw [dayShiftKeys, mem_var_matrix_keys]
    intro hmem
    have := mem_pyRange.mp hmem.2
    omega

/-- C7: for all dimensions, the `X` dict has exactly `N·M·S·T` key tuples and
the `h` dict exactly `N·M`, with no duplicate tuple, and both families are
created with `model.binary_var`. -/
theorem C7_variable_counts (N M S T : Nat) :
    (X_keys N M S T).length = N * M * S * T ∧
    (h_keys N M).length = N * M ∧
    (X_keys N M S T).Nodup ∧
    (h_keys N M).Nodup ∧
    X_kind = VarKind.binary ∧ h_kind = VarKind.binary := by
  refine ⟨?_, ?_, nodup_X_keys N M S T, nodup_h_keys N M, rfl, rfl⟩
  · rw [X_keys_eq_product]
    simp only [List.length_product, length_list_range]
    ring
  · rw [h_keys_eq_product]
    simp [List.length_product, length_list_range]

/-! ## Inversion lemmas for the fallible parts of construction -/

theorem except_bind_ok {ε α β : Type} (a : α) (f : α → Except ε β) :
    (Except.ok a >>= f) = f a := rfl

theorem except_bind_error {ε α β : Type} (e : ε) (f : α → Except ε β) :
    ((Except.error e : Except ε α) >>= f) = Except.error e := rfl

theorem mapM_ok_of_forall_ok {α β : Type} {xs : List α}
    {f : α → Except Unit β} {g : α → β}
    (h : ∀ a ∈ xs, f a = .ok (g a)) : xs.mapM f = .ok (xs.map g) := by
  induction xs with
  | nil => rfl
  | cons a xs ih =>
    rw [List.mapM_cons, h a (by simp), except_bind_ok,
      ih fun b hb => h b (by simp [hb]), except_bind_ok]
    rfl

theorem mapM_error_of_mem {α β : Type} {xs : List α}
    {f : α → Except Unit β} {a : α}
    (ha : a ∈ xs) (hfa : f a = .error ()) : xs.mapM f = .error () := by
  induction xs with
  | nil => simp at ha
  | cons b xs ih =>
    rw [List.mapM_cons]
    rcases List.mem_cons.mp ha with rfl | hmem
    · rw [hfa, except_bind_error]
    · cases hfb : f b with
      | error e => rw [except_bind_error]
      | ok y =>
        rw [except_bind_ok, ih hmem]
        rfl

theorem mem_of_mapM_ok {α β : Type} {xs : List α}
    {f : α → Except Unit β} {ys : List β}
    (h : xs.mapM f = .ok ys) : ∀ b ∈ ys, ∃ a ∈ xs, f a = .ok b := by
  induction xs generalizing ys with
  | nil =>
    intro b hb
    simp only [List.mapM_nil] at h
    cases h
    simp at hb
  | cons a xs ih =>
    intro b hb
    rw [List.mapM_cons] at h
    cases hfa : f a with
    | error e => rw [hfa, except_bind_error] at h; cases h
    | ok y =>
      rw [hfa, except_bind_ok] at h
      cases hrest : xs.mapM f with
      | error e => rw [hrest, except_bind_error] at h; cases h
      | ok ys' =>
        rw [hrest, except_bind_ok] at h
        have hys : y :: ys' = ys := Except.ok.inj h
        rw [← hys] at hb
        rcases List.mem_cons.mp hb with rfl | hmem
        · exact ⟨a, by simp, hfa⟩
        · obtain ⟨a', ha', hfa'⟩ := ih hrest b hmem
          exact ⟨a', by simp [ha'], hfa'⟩

theorem mem_mapM_ok_of_mem {α β : Type} {xs : List α}
    {f : α → Except Unit β} {ys : List β} {a : α} {b : β}
    (h : xs.mapM f = .ok ys) (ha : a ∈ xs) (hfa : f a = .ok b) : b ∈ ys := by
  induction xs generalizing ys with
  | nil => simp at ha
  | cons c xs ih =>
    rw [List.mapM_cons] at h
    cases hfc : f c with
    | error e => rw [hfc, except_bind_error] at h; cases h
    | ok y =>
      rw [hfc, except_bind_ok] at h
      cases hrest : xs.mapM f with
      | error e => rw [hrest, except_bind_error] at h; cases h
      | ok ys' =>
        rw [hrest, except_bind_ok] at h
        have hys : y :: ys' = ys := Except.ok.inj h
        rcases List.mem_cons.mp ha with rfl | hmem
        · rw [hfc] at hfa
          cases hfa
          rw [← hys]
          simp
        · rw [← hys]
          exact List.mem_cons_of_mem y (ih hrest hmem)

theorem build_ok_iff {competency : Nat → Option (Nat → Option ℚ)}
    {L : List Constraint} :
    build competency = .ok L ↔
      ∃ e25 e26 e27 e28 e29 e30 e31,
        Equation_25_cell (person_competency competency) = .ok e25 ∧
        Equation_26_cell (person_competency competency) = .ok e26 ∧
        Equation_27_cell (person_competency competency) = .ok e27 ∧
        Equation_28_cell (person_competency competency) = .ok e28 ∧
        Equation_29_cell (person_competency competency) = .ok e29 ∧
        Equation_30_cell (person_competency competency) = .ok e30 ∧
        Equation_31_cell (person_competency competency) = .ok e31 ∧
        L = fixedConstraints ++ e25 ++ e26 ++ e27 ++ e28 ++ e29 ++ e30
              ++ e31 := by
  constructor
  · intro hL
    unfold build at hL
    cases h25 : Equation_25_cell (person_competency competency) with
    | error e => rw [h25, except_bind_error] at hL; cases hL
    | ok e25 =>
    rw [h25, except_bind_ok] at hL
    cases h26 : Equation_26_cell (person_competency competency) with
    | error e => rw [h26, except_bind_error] at hL; cases hL
    | ok e26 =>
    rw [h26, except_bind_ok] at hL
    cases h27 : Equation_27_cell (person_competency competency) with
    | error e => rw [h27, except_bind_error] at hL; cases hL
    | ok e27 =>
    rw [h27, except_bind_ok] at hL
    cases h28 : Equation_28_cell (person_competency competency) with
    | error e => rw [h28, except_bind_error] at hL; cases hL
    | ok e28 =>
    rw [h28, except_bind_ok] at hL
    cases h29 : Equation_29_cell (person_competency competency) with
    | error e => rw [h29, except_bind_error] at hL; cases hL
    | ok e29 =>
    rw [h29, except_bind_ok] at hL
    cases h30 : Equation_30_cell (person_competency competency) with
    | error e => rw [h30, except_bind_error] at hL; cases hL
    | ok e30 =>
    rw [h30, except_bind_ok] at hL
    cases h31 : Equation_31_cell (person_competency competency) with
    | error e => rw [h31, except_bind_error] at hL; cases hL
    | ok e31 =>
    rw [h31, except_bind_ok] at hL
    have hL' : fixedConstraints ++ e25 ++ e26 ++ e27 ++ e28 ++ e29 ++ e30
        ++ e31 = L := Except.ok.inj hL
    exact ⟨e25, e26, e27, e28, e29, e30, e31, rfl, rfl, rfl, rfl, rfl, rfl,
      rfl, hL'.symm⟩
  · rintro ⟨e25, e26, e27, e28, e29, e30, e31, h25, h26, h27, h28, h29, h30,
      h31, rfl⟩
    unfold build
    rw [h25, except_bind_ok, h26, except_bind_ok, h27, except_bind_ok, h28,
      except_bind_ok, h29, except_bind_ok, h30, except_bind_ok, h31,
      except_bind_ok]
    rfl

theorem fixed_mem_build {competency : Nat → Option (Nat → Option ℚ)}
    {L : List Constraint} (hL : build competency = .ok L)
    {c : Constraint} (hc : c ∈ fixedConstraints) : c ∈ L := by
  obtain ⟨e25, e26, e27, e28, e29, e30, e31, _, _, _, _, _, _, _, rfl⟩ :=
    build_ok_iff.mp hL
  simp [hc]

/-! ## Coefficients of the `sum_{k,l} X[i, j, k, l]` building block -/

theorem sectionShiftSum_coeff_eq_one {i j k l : Nat} (hk1 : 1 ≤ k)
    (hk2 : k ≤ s) (hl1 : 1 ≤ l) (hl2 : l ≤ t) :
    (LinExpr.sumL ((list_range s).flatMap fun k' =>
        (list_range t).map fun l' =>
          LinExpr.ofVar (Var.X i j k' l'))).coeff (Var.X i j k l) = 1 := by
  rw [flatMap_map_eq_map_pairs]
  exact coeff_sumL_ofVar_of_mem
    (nodup_var_matrix_keys (nodup_list_range s) (nodup_list_range t))
    (fun a _ b _ hab => by
      injection hab with e1 e2 e3 e4
      exact Prod.ext e3 e4)
    (mem_var_matrix_keys.mpr ⟨mem_list_range.mpr ⟨hk1, hk2⟩,
      mem_list_range.mpr ⟨hl1, hl2⟩⟩)

theorem sectionShiftSum_coeff_eq_zero {i j : Nat} {v : Var}
    (hv : ∀ k l, v ≠ Var.X i j k l) :
    (LinExpr.sumL ((list_range s).flatMap fun k' =>
        (list_range t).map fun l' =>
          LinExpr.ofVar (Var.X i j k' l'))).coeff v = 0 := by
  rw [flatMap_map_eq_map_pairs]
  exact coeff_sumL_ofVar_of_not_mem fun p _ hfp => hv p.1 p.2 hfp.symm

theorem mem_Equation_23_cell {i j : Nat} (hi1 : 1 ≤ i) (hi2 : i ≤ n)
    (hj1 : 1 ≤ j) (hj2 : j ≤ m - 2) :
    Equation_23_con i j ∈ Equation_23_cell := by
  rw [Equation_23_cell, List.mem_flatMap]
  exact ⟨i, mem_list_range.mpr ⟨hi1, hi2⟩,
    List.mem_map.mpr ⟨j, mem_list_range.mpr ⟨hj1, hj2⟩, rfl⟩⟩

theorem mem_fixed_of_mem_E23 {c : Constraint} (hc : c ∈ Equation_23_cell) :
    c ∈ fixedConstraints := by
  simp [fixedConstraints, hc]

/-- C5: for every person `i ∈ [1, n]` and day `j ∈ [1, m-2]`, the built model
contains the single combined goal-2 equality
`Σ_{k,l} X(i,j,k,l) + h(i,j+1) + Σ_{k,l} X(i,j+1,k,l) + d⁻₂(i,j) − d⁺₂(i,j) = 2`
— exactly as written, mixing the assignment sums at days `j` and `j+1` with
the leave term at day `j+1`: the constraint is generated, is an equality with
right-hand side 2, and its left side carries coefficient 1 on each in-range
assignment variable of days `j` and `j+1`, 1 on `h(i,j+1)`, 1 on `d⁻₂(i,j)`,
−1 on `d⁺₂(i,j)` and 0 on every other variable. -/
theorem C5_goal2_combined (i j : Nat) (hi1 : 1 ≤ i) (hi2 : i ≤ n)
    (hj1 : 1 ≤ j) (hj2 : j ≤ m - 2) :
    Equation_23_con i j ∈ Equation_23_cell ∧
    (∀ competency L, build competency = .ok L → Equation_23_con i j ∈ L) ∧
    (Equation_23_con i j).rel = RelOp.eq ∧
    (Equation_23_con i j).rhs = LinExpr.constE 2 ∧
    (∀ k l, 1 ≤ k → k ≤ s → 1 ≤ l → l ≤ t →
      (Equation_23_con i j).lhs.coeff (Var.X i j k l) = 1 ∧
      (Equation_23_con i j).lhs.coeff (Var.X i (j + 1) k l) = 1) ∧
    (Equation_23_con i j).lhs.coeff (Var.h i (j + 1)) = 1 ∧
    (Equation_23_con i j).lhs.coeff (Var.dNeg 2 i j) = 1 ∧
    (Equation_23_con i j).lhs.coeff (Var.dPos 2 i j) = -1 ∧
    (∀ v, (∀ k l, v ≠ Var.X i j k l) → (∀ k l, v ≠ Var.X i (j + 1) k l) →
      v ≠ Var.h i (j + 1) → v ≠ Var.dNeg 2 i j → v ≠ Var.dPos 2 i j →
      (Equation_23_con i j).lhs.coeff v = 0) := by
  refine ⟨mem_Equation_23_cell hi1 hi2 hj1 hj2,
    fun competency L hL =>
      fixed_mem_build hL (mem_fixed_of_mem_E23
        (mem_Equation_23_cell hi1 hi2 hj1 hj2)),
    rfl, rfl, ?_, ?_, ?_, ?_, ?_⟩
  · intro k l hk1 hk2 hl1 hl2
    constructor
    · simp only [Equation_23_con, LinExpr.coeff_sub, LinExpr.coeff_add,
        LinExpr.coeff_ofVar]
      rw [sectionShiftSum_coeff_eq_one hk1 hk2 hl1 hl2,
        sectionShiftSum_coeff_eq_zero
          (fun k' l' h => by injection h with e1 e2 e3 e4; omega)]
      simp
    · simp only [Equation_23_con, LinExpr.coeff_sub, LinExpr.coeff_add,
        LinExpr.coeff_ofVar]
      rw [sectionShiftSum_coeff_eq_one hk1 hk2 hl1 hl2,
        sectionShiftSum_coeff_eq_zero
          (fun k' l' h => by injection h with e1 e2 e3 e4; omega)]
      simp
  · simp only [Equation_23_con, LinExpr.coeff_sub, LinExpr.coeff_add,
      LinExpr.coeff_ofVar]
    rw [sectionShiftSum_coeff_eq_zero (fun k' l' h => by cases h),
      sectionShiftSum_coeff_eq_zero (fun k' l' h => by cases h)]
    simp
  · simp only [Equation_23_con, LinExpr.coeff_sub, LinExpr.coeff_add,
      LinExpr.coeff_ofVar]
    rw [sectionShiftSum_coeff_eq_zero (fun k' l' h => by cases h),
      sectionShiftSum_coeff_eq_zero (fun k' l' h => by cases h)]
    simp
  · simp only [Equation_23_con, LinExpr.coeff_sub, LinExpr.coeff_add,
      LinExpr.coeff_ofVar]
    rw [sectionShiftSum_coeff_eq_zero (fun k' l' h => by cases h),
      sectionShiftSum_coeff_eq_zero (fun k' l' h => by cases h)]
    simp
  · intro v hX1 hX2 hh hdn hdp
    simp only [Equation_23_con, LinExpr.coeff_sub, LinExpr.coeff_add,
      LinExpr.coeff_ofVar]
    rw [sectionShiftSum_coeff_eq_zero hX1, sectionShiftSum_coeff_eq_zero hX2,
      if_neg (fun e => hh e.symm), if_neg (fun e => hdn e.symm),
      if_neg (fun e => hdp e.symm)]
    ring

/-! ## The rolling 7-day leave window (Equations 15/16) -/

theorem sum_ite_single' {α β : Type} [DecidableEq β]
    {xs : List α} {f : α → β} (c : α → ℚ) {a0 : α} {v : β}
    (hnd : xs.Nodup)
    (hinj : ∀ a ∈ xs, ∀ b ∈ xs, f a = f b → a = b)
    (ha0 : a0 ∈ xs) (hfa0 : f a0 = v) :
    (xs.map fun a => if f a = v then c a else 0).sum = c a0 := by
  subst hfa0
  exact sum_ite_single c hnd hinj ha0

theorem Equation_15_con_coeff_h (i j a b : Nat) :
    (Equation_15_con i j).lhs.coeff (Var.h a b)
      = if a = i ∧ j ≤ b ∧ b ≤ j + 6 then 1 else 0 := by
  simp only [Equation_15_con]
  rw [LinExpr.coeff_sumL_map_ofVar]
  by_cases hcond : a = i ∧ j ≤ b ∧ b ≤ j + 6
  · obtain ⟨rfl, hb1, hb2⟩ := hcond
    rw [if_pos ⟨rfl, hb1, hb2⟩]
    exact sum_ite_single' (fun _ => 1) (List.nodup_range 7)
      (fun x _ y _ hxy => by injection hxy with e1 e2; omega)
      (List.mem_range.mpr (show b - j < 7 by omega))
      (by congr 1; omega)
  · rw [if_neg hcond]
    refine sum_ite_of_not_mem _ _ _ _ fun d hd hne => hcond ?_
    have hd7 := List.mem_range.mp hd
    injection hne with e1 e2
    exact ⟨e1.symm, by omega, by omega⟩

theorem Equation_15_con_coeff_other {i j : Nat} {v : Var}
    (hv : ∀ b, v ≠ Var.h i b) : (Equation_15_con i j).lhs.coeff v = 0 := by
  simp only [Equation_15_con]
  rw [LinExpr.coeff_sumL_map_ofVar]
  exact sum_ite_of_not_mem _ _ _ _ fun d _ hne => hv (j + d) hne.symm

theorem Equation_16_con_lhs (i j : Nat) :
    (Equation_16_con i j).lhs = (Equation_15_con i j).lhs := rfl

theorem eq15_lhs_inj {i j i' j' : Nat}
    (h : (Equation_15_con i j).lhs = (Equation_15_con i' j').lhs) :
    i = i' ∧ j = j' := by
  have h1 := congrArg (fun e => LinExpr.coeff e (Var.h i j)) h
  have h2 := congrArg (fun e => LinExpr.coeff e (Var.h i' j')) h
  simp only at h1 h2
  rw [Equation_15_con_coeff_h, Equation_15_con_coeff_h] at h1 h2
  have c1 : i = i' ∧ j' ≤ j ∧ j ≤ j' + 6 := by
    by_contra hc
    rw [if_pos ⟨rfl, by omega, by omega⟩, if_neg hc] at h1
    norm_num at h1
  have c2 : i' = i ∧ j ≤ j' ∧ j' ≤ j + 6 := by
    by_contra hc
    rw [if_neg hc, if_pos ⟨rfl, by omega, by omega⟩] at h2
    norm_num at h2
  exact ⟨c1.1, by omega⟩

theorem eq15_inj {i j i' j' : Nat}
    (h : Equation_15_con i j = Equation_15_con i' j') : i = i' ∧ j = j' :=
  eq15_lhs_inj (congrArg Constraint.lhs h)

theorem eq16_inj {i j i' j' : Nat}
    (h : Equation_16_con i j = Equation_16_con i' j') : i = i' ∧ j = j' := by
  have h' := congrArg Constraint.lhs h
  rw [Equation_16_con_lhs, Equation_16_con_lhs] at h'
  exact eq15_lhs_inj h'

theorem eq15_ne_eq16 {i j i' j' : Nat} :
    Equation_15_con i j ≠ Equation_16_con i' j' := by
  intro h
  have hrel := congrArg Constraint.rel h
  simp only [Equation_15_con, Equation_16_con] at hrel
  cases hrel

theorem flatMap_flatMap_eq_pairs {γ : Type} (xs ys : List Nat)
    (F : Nat → Nat → List γ) :
    (xs.flatMap fun a => ys.flatMap fun b => F a b)
      = (var_matrix_keys xs ys).flatMap fun p => F p.1 p.2 := by
  rw [var_matrix_keys, List.flatMap_assoc]
  congr 1
  funext a
  rw [List.flatMap_map]

theorem nodup_Equations_15_16_cell : Equations_15_16_cell.Nodup := by
  rw [Equations_15_16_cell, flatMap_flatMap_eq_pairs]
  rw [List.nodup_flatMap]
  refine ⟨fun p _ => ?_, ?_⟩
  · exact List.nodup_cons.mpr ⟨by simp [eq15_ne_eq16], List.nodup_singleton _⟩
  · refine List.Pairwise.imp ?_
      (nodup_var_matrix_keys (nodup_list_range n) (nodup_list_range (m - 6)))
    intro p q hne c hcp hcq
    simp only [Function.onFun, List.mem_cons, List.not_mem_nil, or_false]
      at hcp hcq
    rcases hcp with rfl | rfl
    · rcases hcq with he | he
      · obtain ⟨e1, e2⟩ := eq15_inj he
        exact hne (Prod.ext e1 e2)
      · exact eq15_ne_eq16 he
    · rcases hcq with he | he
      · exact eq15_ne_eq16 he.symm
      · obtain ⟨e1, e2⟩ := eq16_inj he
        exact hne (Prod.ext e1 e2)

theorem eq15_mem_cell_iff {i j : Nat} :
    Equation_15_con i j ∈ Equations_15_16_cell
      ↔ (1 ≤ i ∧ i ≤ n) ∧ (1 ≤ j ∧ j ≤ m - 6) := by
  rw [Equations_15_16_cell, flatMap_flatMap_eq_pairs]
  simp only [List.mem_flatMap]
  constructor
  · rintro ⟨p, hp, hmem⟩
    obtain ⟨hp1, hp2⟩ := mem_var_matrix_keys.mp hp
    simp only [List.mem_cons, List.not_mem_nil, or_false] at hmem
    rcases hmem with he | he
    · obtain ⟨rfl, rfl⟩ := eq15_inj he
      exact ⟨mem_list_range.mp hp1, mem_list_range.mp hp2⟩
    · exact absurd he eq15_ne_eq16
  · rintro ⟨⟨hi1, hi2⟩, hj1, hj2⟩
    exact ⟨(i, j), mem_var_matrix_keys.mpr ⟨mem_list_range.mpr ⟨hi1, hi2⟩,
      mem_list_range.mpr ⟨hj1, hj2⟩⟩, by simp⟩

theorem eq16_mem_cell_iff {i j : Nat} :
    Equation_16_con i j ∈ Equations_15_16_cell
      ↔ (1 ≤ i ∧ i ≤ n) ∧ (1 ≤ j ∧ j ≤ m - 6) := by
  rw [Equations_15_16_cell, flatMap_flatMap_eq_pairs]
  simp only [List.mem_flatMap]
  constructor
  · rintro ⟨p, hp, hmem⟩
    obtain ⟨hp1, hp2⟩ := mem_var_matrix_keys.mp hp
    simp only [List.mem_cons, List.not_mem_nil, or_false] at hmem
    rcases hmem with he | he
    · exact absurd he.symm eq15_ne_eq16
    · obtain ⟨rfl, rfl⟩ := eq16_inj he
      exact ⟨mem_list_range.mp hp1, mem_list_range.mp hp2⟩
  · rintro ⟨⟨hi1, hi2⟩, hj1, hj2⟩
    exact ⟨(i, j), mem_var_matrix_keys.mpr ⟨mem_list_range.mpr ⟨hi1, hi2⟩,
      mem_list_range.mpr ⟨hj1, hj2⟩⟩, by simp⟩

theorem count_cell_eq15 (i j : Nat) :
    Equations_15_16_cell.count (Equation_15_con i j)
      = if (1 ≤ i ∧ i ≤ n) ∧ (1 ≤ j ∧ j ≤ m - 6) then 1 else 0 := by
  rw [List.count_eq_of_nodup nodup_Equations_15_16_cell]
  simp only [eq15_mem_cell_iff]

theorem count_cell_eq16 (i j : Nat) :
    Equations_15_16_cell.count (Equation_16_con i j)
      = if (1 ≤ i ∧ i ≤ n) ∧ (1 ≤ j ∧ j ≤ m - 6) then 1 else 0 := by
  rw [List.count_eq_of_nodup nodup_Equations_15_16_cell]
  simp only [eq16_mem_cell_iff]

/-! ## Shape facts distinguishing the constraint families -/

theorem count_eq_zero_of_ne {L : List Constraint} {c : Constraint}
    (h : ∀ c' ∈ L, c' ≠ c) : L.count c = 0 :=
  List.count_eq_zero.mpr fun hc => (h c hc) rfl

theorem coverageCell_shape {ks : Nat} {rq : ℚ} :
    ∀ c ∈ coverageCell ks rq, c.rel = RelOp.eq := by
  intro c hc
  simp only [coverageCell, List.mem_flatMap, List.mem_map] at hc
  obtain ⟨j, _, l, _, rfl⟩ := hc
  rfl

theorem Equation_13_cell_shape :
    ∀ c ∈ Equation_13_cell, c.rel = RelOp.le ∧ c.rhs = LinExpr.constE 1 := by
  intro c hc
  simp only [Equation_13_cell, List.mem_flatMap, List.mem_map] at hc
  obtain ⟨i, _, j, _, rfl⟩ := hc
  exact ⟨rfl, rfl⟩

theorem Equation_14_cell_shape :
    ∀ c ∈ Equation_14_cell, c.rel = RelOp.le ∧ c.rhs.terms ≠ [] := by
  intro c hc
  simp only [Equation_14_cell, List.mem_flatMap, List.mem_map] at hc
  obtain ⟨i, _, j, _, rfl⟩ := hc
  refine ⟨rfl, ?_⟩
  simp [Equation_14_con, LinExpr.sub, LinExpr.add, LinExpr.neg,
    LinExpr.constE, LinExpr.ofVar]

theorem Equations_17_18_cell_shape :
    ∀ c ∈ Equations_17_18_cell,
      c.rel = RelOp.le ∧ c.rhs = LinExpr.constE 12 := by
  intro c hc
  simp only [Equations_17_18_cell, List.mem_flatMap, List.mem_cons,
    List.not_mem_nil, or_false] at hc
  obtain ⟨i, _, rfl | rfl⟩ := hc
  · exact ⟨rfl, rfl⟩
  · exact ⟨rfl, rfl⟩

theorem Equations_19_20_cell_shape :
    ∀ c ∈ Equations_19_20_cell,
      c.rel = RelOp.ge ∧ c.rhs = LinExpr.constE 10 := by
  intro c hc
  simp only [Equations_19_20_cell, List.mem_flatMap, List.mem_cons,
    List.not_mem_nil, or_false] at hc
  obtain ⟨i, _, rfl | rfl⟩ := hc
  · exact ⟨rfl, rfl⟩
  · exact ⟨rfl, rfl⟩

theorem Equation_21_cell_shape :
    ∀ c ∈ Equation_21_cell, c.rel = RelOp.le ∧ c.rhs = LinExpr.constE 1 := by
  intro c hc
  simp only [Equation_21_cell, List.mem_flatMap, List.mem_map] at hc
  obtain ⟨i, _, j, _, rfl⟩ := hc
  exact ⟨rfl, rfl⟩

theorem Equation_22_cell_shape :
    ∀ c ∈ Equation_22_cell, c.rel = RelOp.eq := by
  intro c hc
  simp only [Equation_22_cell, List.mem_flatMap, List.mem_map] at hc
  obtain ⟨i, _, j, _, rfl⟩ := hc
  rfl

theorem Equation_23_cell_shape :
    ∀ c ∈ Equation_23_cell, c.rel = RelOp.eq := by
  intro c hc
  simp only [Equation_23_cell, List.mem_flatMap, List.mem_map] at hc
  obtain ⟨i, _, j, _, rfl⟩ := hc
  rfl

theorem Equation_24_cell_shape :
    ∀ c ∈ Equation_24_cell, c.rel = RelOp.eq := by
  intro c hc
  simp only [Equation_24_cell, List.mem_map] at hc
  obtain ⟨i, _, rfl⟩ := hc
  rfl

theorem qualityCon_ok_shape {pc : Nat → Nat → Option ℚ} {ksec gidx : Nat}
    {target : ℚ} {j l : Nat} {C : Constraint}
    (h : qualityCon pc ksec gidx target j l = .ok C) :
    C.rel = RelOp.eq ∧ C.rhs = LinExpr.constE target := by
  unfold qualityCon at h
  cases hmm : (list_range n).mapM fun i => qualityTerm pc i j ksec l with
  | error e => rw [hmm] at h; cases h
  | ok terms =>
    rw [hmm] at h
    have hC := Except.ok.inj h
    rw [← hC]
    exact ⟨rfl, rfl⟩

theorem quality_mapM_shape {pc : Nat → Nat → Option ℚ} {ksec gidx : Nat}
    {target : ℚ} {ys : List Constraint}
    (h : dayShiftPairs.mapM
        (fun p => qualityCon pc ksec gidx target p.1 p.2) = .ok ys) :
    ∀ C ∈ ys, C.rel = RelOp.eq := by
  intro C hC
  obtain ⟨p, _, hp⟩ := mem_of_mapM_ok h C hC
  exact (qualityCon_ok_shape hp).1

/-- In any successfully built model, every constraint contributed by the
Equation 25-31 cells is an equality. -/
theorem build_quality_rel {competency : Nat → Option (Nat → Option ℚ)}
    {L : List Constraint} (hL : build competency = .ok L) :
    ∀ c ∈ L, c ∉ fixedConstraints → c.rel = RelOp.eq := by
  obtain ⟨e25, e26, e27, e28, e29, e30, e31, h25, h26, h27, h28, h29, h30,
    h31, rfl⟩ := build_ok_iff.mp hL
  intro c hc hnfix
  simp only [List.mem_append] at hc
  rcases hc with ((((((hc | hc) | hc) | hc) | hc) | hc) | hc) | hc
  · exact absurd hc hnfix
  · exact quality_mapM_shape h25 c hc
  · exact quality_mapM_shape h26 c hc
  · exact quality_mapM_shape h27 c hc
  · exact quality_mapM_shape h28 c hc
  · exact quality_mapM_shape h29 c hc
  · exact quality_mapM_shape h30 c hc
  · exact quality_mapM_shape h31 c hc

theorem count_fixed_eq15 (i j : Nat) :
    fixedConstraints.count (Equation_15_con i j)
      = if (1 ≤ i ∧ i ≤ n) ∧ (1 ≤ j ∧ j ≤ m - 6) then 1 else 0 := by
  have hz : ∀ L : List Constraint, (∀ c ∈ L, c.rel = RelOp.eq) →
      List.count (Equation_15_con i j) L = 0 := fun L hL =>
    count_eq_zero_of_ne fun c hc he => by
      have hr := hL c hc
      rw [he] at hr
      cases hr
  have hzge : ∀ L : List Constraint, (∀ c ∈ L, c.rel = RelOp.ge) →
      List.count (Equation_15_con i j) L = 0 := fun L hL =>
    count_eq_zero_of_ne fun c hc he => by
      have hr := hL c hc
      rw [he] at hr
      cases hr
  have hz13 : List.count (Equation_15_con i j) Equation_13_cell = 0 := by
    refine count_eq_zero_of_ne fun c hc he => ?_
    have hr := (Equation_13_cell_shape c hc).2
    rw [he] at hr
    exact absurd (congrArg LinExpr.const hr)
      (by norm_num [Equation_15_con, LinExpr.constE])
  have hz14 : List.count (Equation_15_con i j) Equation_14_cell = 0 := by
    refine count_eq_zero_of_ne fun c hc he => ?_
    have hr := (Equation_14_cell_shape c hc).2
    rw [he] at hr
    exact hr rfl
  have hz1718 : List.count (Equation_15_con i j) Equations_17_18_cell = 0 := by
    refine count_eq_zero_of_ne fun c hc he => ?_
    have hr := (Equations_17_18_cell_shape c hc).2
    rw [he] at hr
    exact absurd (congrArg LinExpr.const hr)
      (by norm_num [Equation_15_con, LinExpr.constE])
  have hz21 : List.count (Equation_15_con i j) Equation_21_cell = 0 := by
    refine count_eq_zero_of_ne fun c hc he => ?_
    have hr := (Equation_21_cell_shape c hc).2
    rw [he] at hr
    exact absurd (congrArg LinExpr.const hr)
      (by norm_num [Equation_15_con, LinExpr.constE])
  have hc6 : List.count (Equation_15_con i j) Equation_6_cell = 0 :=
    hz _ (@coverageCell_shape 1 3)
  have hc7 : List.count (Equation_15_con i j) Equation_7_cell = 0 :=
    hz _ (@coverageCell_shape 2 4)
  have hc8 : List.count (Equation_15_con i j) Equation_8_cell = 0 :=
    hz _ (@coverageCell_shape 3 4)
  have hc9 : List.count (Equation_15_con i j) Equation_9_cell = 0 :=
    hz _ (@coverageCell_shape 3 4)
  have hc10 : List.count (Equation_15_con i j) Equation_10_cell = 0 :=
    hz _ (@coverageCell_shape 5 6)
  have hc11 : List.count (Equation_15_con i j) Equation_11_cell = 0 :=
    hz _ (@coverageCell_shape 6 8)
  have hc12 : List.count (Equation_15_con i j) Equation_12_cell = 0 :=
    hz _ (@coverageCell_shape 7 5)
  have hc1920 : List.count (Equation_15_con i j) Equations_19_20_cell = 0 :=
    hzge _ fun c hc => (Equations_19_20_cell_shape c hc).1
  have hc22 : List.count (Equation_15_con i j) Equation_22_cell = 0 :=
    hz _ Equation_22_cell_shape
  have hc23 : List.count (Equation_15_con i j) Equation_23_cell = 0 :=
    hz _ Equation_23_cell_shape
  have hc24 : List.count (Equation_15_con i j) Equation_24_cell = 0 :=
    hz _ Equation_24_cell_shape
  rw [fixedConstraints]
  simp only [List.count_append]
  rw [hc6, hc7, hc8, hc9, hc10, hc11, hc12, hz13, hz14, count_cell_eq15,
    hz1718, hc1920, hz21, hc22, hc23, hc24]
  omega

theorem count_fixed_eq16 (i j : Nat) :
    fixedConstraints.count (Equation_16_con i j)
      = if (1 ≤ i ∧ i ≤ n) ∧ (1 ≤ j ∧ j ≤ m - 6) then 1 else 0 := by
  have hz : ∀ L : List Constraint, (∀ c ∈ L, c.rel = RelOp.eq) →
      List.count (Equation_16_con i j) L = 0 := fun L hL =>
    count_eq_zero_of_ne fun c hc he => by
      have hr := hL c hc
      rw [he] at hr
      cases hr
  have hzle : ∀ L : List Constraint, (∀ c ∈ L, c.rel = RelOp.le) →
      List.count (Equation_16_con i j) L = 0 := fun L hL =>
    count_eq_zero_of_ne fun c hc he => by
      have hr := hL c hc
      rw [he] at hr
      cases hr
  have hc6 : List.count (Equation_16_con i j) Equation_6_cell = 0 :=
    hz _ (@coverageCell_shape 1 3)
  have hc7 : List.count (Equation_16_con i j) Equation_7_cell = 0 :=
    hz _ (@coverageCell_shape 2 4)
  have hc8 : List.count (Equation_16_con i j) Equation_8_cell = 0 :=
    hz _ (@coverageCell_shape 3 4)
  have hc9 : List.count (Equation_16_con i j) Equation_9_cell = 0 :=
    hz _ (@coverageCell_shape 3 4)
  have hc10 : List.count (Equation_16_con i j) Equation_10_cell = 0 :=
    hz _ (@coverageCell_shape 5 6)
  have hc11 : List.count (Equation_16_con i j) Equation_11_cell = 0 :=
    hz _ (@coverageCell_shape 6 8)
  have hc12 : List.count (Equation_16_con i j) Equation_12_cell = 0 :=
    hz _ (@coverageCell_shape 7 5)
  have hc13 : List.count (Equation_16_con i j) Equation_13_cell = 0 :=
    hzle _ fun c hc => (Equation_13_cell_shape c hc).1
  have hc14 : List.count (Equation_16_con i j) Equation_14_cell = 0 :=
    hzle _ fun c hc => (Equation_14_cell_shape c hc).1
  have hc1718 : List.count (Equation_16_con i j) Equations_17_18_cell = 0 :=
    hzle _ fun c hc => (Equations_17_18_cell_shape c hc).1
  have hc1920 : List.count (Equation_16_con i j) Equations_19_20_cell = 0 := by
    refine count_eq_zero_of_ne fun c hc he => ?_
    have hr := (Equations_19_20_cell_shape c hc).2
    rw [he] at hr
    exact absurd (congrArg LinExpr.const hr)
      (by norm_num [Equation_16_con, LinExpr.constE])
  have hc21 : List.count (Equation_16_con i j) Equation_21_cell = 0 :=
    hzle _ fun c hc => (Equation_21_cell_shape c hc).1
  have hc22 : List.count (Equation_16_con i j) Equation_22_cell = 0 :=
    hz _ Equation_22_cell_shape
  have hc23 : List.count (Equation_16_con i j) Equation_23_cell = 0 :=
    hz _ Equation_23_cell_shape
  have hc24 : List.count (Equation_16_con i j) Equation_24_cell = 0 :=
    hz _ Equation_24_cell_shape
  rw [fixedConstraints]
  simp only [List.count_append]
  rw [hc6, hc7, hc8, hc9, hc10, hc11, hc12, hc13, hc14, count_cell_eq16,
    hc1718, hc1920, hc21, hc22, hc23, hc24]
  omega

/-- C6: for every person `i ∈ [1, n]` and window start `j ∈ [1, m-6]`, every
successfully built model contains exactly one copy of each of the two rolling
7-day leave inequalities — the window sum `h(i,j) + ... + h(i,j+6)` at most 2
and the same sum at least 1 — and no window inequality whose start day
exceeds `m - 6` is generated; the two constraints share the identical
left-hand window sum, whose coefficient on `h(a, b)` is 1 exactly when
`a = i` and `j ≤ b ≤ j + 6`, and 0 on every non-leave variable. -/
theorem C6_rolling_leave_window (i j : Nat) (hi1 : 1 ≤ i) (hi2 : i ≤ n)
    (hj1 : 1 ≤ j) (hj2 : j ≤ m - 6) :
    (∀ competency L, build competency = .ok L →
      List.count (Equation_15_con i j) L = 1 ∧
      List.count (Equation_16_con i j) L = 1) ∧
    (∀ i' j', m - 6 < j' → ∀ competency L, build competency = .ok L →
      Equation_15_con i' j' ∉ L ∧ Equation_16_con i' j' ∉ L) ∧
    (Equation_15_con i j).rel = RelOp.le ∧
    (Equation_15_con i j).rhs = LinExpr.constE 2 ∧
    (Equation_16_con i j).rel = RelOp.ge ∧
    (Equation_16_con i j).rhs = LinExpr.constE 1 ∧
    (Equation_16_con i j).lhs = (Equation_15_con i j).lhs ∧
    (∀ a b, (Equation_15_con i j).lhs.coeff (Var.h a b)
      = if a = i ∧ j ≤ b ∧ b ≤ j + 6 then 1 else 0) ∧
    (∀ v, (∀ b, v ≠ Var.h i b) → (Equation_15_con i j).lhs.coeff v = 0) := by
  refine ⟨?_, ?_, rfl, rfl, rfl, rfl, rfl,
    fun a b => Equation_15_con_coeff_h i j a b,
    fun v hv => Equation_15_con_coeff_other hv⟩
  · intro competency L hL
    obtain ⟨e25, e26, e27, e28, e29, e30, e31, h25, h26, h27, h28, h29, h30,
      h31, rfl⟩ := build_ok_iff.mp hL
    have hq15 : ∀ ys : List Constraint, (∀ C ∈ ys, C.rel = RelOp.eq) →
        List.count (Equation_15_con i j) ys = 0 := fun ys hys =>
      count_eq_zero_of_ne fun c hc he => by
        have hr := hys c hc
        rw [he] at hr
        cases hr
    have hq16 : ∀ ys : List Constraint, (∀ C ∈ ys, C.rel = RelOp.eq) →
        List.count (Equation_16_con i j) ys = 0 := fun ys hys =>
      count_eq_zero_of_ne fun c hc he => by
        have hr := hys c hc
        rw [he] at hr
        cases hr
    simp only [List.count_append]
    rw [count_fixed_eq15, count_fixed_eq16,
      hq15 _ (quality_mapM_shape h25), hq16 _ (quality_mapM_shape h25),
      hq15 _ (quality_mapM_shape h26), hq16 _ (quality_mapM_shape h26),
      hq15 _ (quality_mapM_shape h27), hq16 _ (quality_mapM_shape h27),
      hq15 _ (quality_mapM_shape h28), hq16 _ (quality_mapM_shape h28),
      hq15 _ (quality_mapM_shape h29), hq16 _ (quality_mapM_shape h29),
      hq15 _ (quality_mapM_shape h30), hq16 _ (quality_mapM_shape h30),
      hq15 _ (quality_mapM_shape h31), hq16 _ (quality_mapM_shape h31),
      if_pos ⟨⟨hi1, hi2⟩, hj1, hj2⟩]
    omega
  · intro i' j' hj' competency L hL
    obtain ⟨e25, e26, e27, e28, e29, e30, e31, h25, h26, h27, h28, h29, h30,
      h31, rfl⟩ := build_ok_iff.mp hL
    constructor
    · intro hmem
      simp only [List.mem_append] at hmem
      rcases hmem with ((((((hm | hm) | hm) | hm) | hm) | hm) | hm) | hm
      · have hcnt := count_fixed_eq15 i' j'
        rw [if_neg (by omega)] at hcnt
        exact absurd hm (List.count_eq_zero.mp hcnt)
      · exact RelOp.noConfusion (quality_mapM_shape h25 _ hm)
      · exact RelOp.noConfusion (quality_mapM_shape h26 _ hm)
      · exact RelOp.noConfusion (quality_mapM_shape h27 _ hm)
      · exact RelOp.noConfusion (quality_mapM_shape h28 _ hm)
      · exact RelOp.noConfusion (quality_mapM_shape h29 _ hm)
      · exact RelOp.noConfusion (quality_mapM_shape h30 _ hm)
      · exact RelOp.noConfusion (quality_mapM_shape h31 _ hm)
    · intro hmem
      simp only [List.mem_append] at hmem
      rcases hmem with ((((((hm | hm) | hm) | hm) | hm) | hm) | hm) | hm
      · have hcnt := count_fixed_eq16 i' j'
        rw [if_neg (by omega)] at hcnt
        exact absurd hm (List.count_eq_zero.mp hcnt)
      · exact RelOp.noConfusion (quality_mapM_shape h25 _ hm)
      · exact RelOp.noConfusion (quality_mapM_shape h26 _ hm)
      · exact RelOp.noConfusion (quality_mapM_shape h27 _ hm)
      · exact RelOp.noConfusion (quality_mapM_shape h28 _ hm)
      · exact RelOp.noConfusion (quality_mapM_shape h29 _ hm)
      · exact RelOp.noConfusion (quality_mapM_shape h30 _ hm)
      · exact RelOp.noConfusion (quality_mapM_shape h31 _ hm)

/-- Witness for C6 at the concrete window (person 1, start day 1). -/
theorem C6_witness :
    (Equation_15_con 1 1).rel = RelOp.le ∧
    (Equation_15_con 1 1).rhs = LinExpr.constE 2 := by
  have h := C6_rolling_leave_window 1 1 (by decide) (by decide) (by decide)
    (by decide)
  exact ⟨h.2.2.1, h.2.2.2.1⟩

/-- Witness for C5 at person 1, day 1. -/
theorem C5_witness :
    Equation_23_con 1 1 ∈ Equation_23_cell ∧
    (Equation_23_con 1 1).rel = RelOp.eq := by
  have h := C5_goal2_combined 1 1 (by decide) (by decide) (by decide)
    (by decide)
  exact ⟨h.1, h.2.2.1⟩

/-! ## The per-section quality goal constraints (Equations 25-31) -/

/-- The per-section quality target of the Equation 25-31 cells:
`(3, 4, 4, 4, 6, 8, 5)` for sections 1..7 (cell `ksec` uses deviation pair
`ksec + 3` and this target). -/
def qualityTargets : Nat → ℚ
  | 1 => 3
  | 2 => 4
  | 3 => 4
  | 4 => 4
  | 5 => 6
  | 6 => 8
  | 7 => 5
  | _ => 0

theorem coeff_sumL_map_smul_ofVar {α : Type} (xs : List α) (c : α → ℚ)
    (f : α → Var) (v : Var) :
    (LinExpr.sumL (xs.map fun a =>
        LinExpr.smul (c a) (LinExpr.ofVar (f a)))).coeff v
      = (xs.map fun a => if f a = v then c a else 0).sum := by
  rw [LinExpr.coeff_sumL, List.map_map]
  congr 1
  refine List.map_congr_left fun a _ => ?_
  simp [Function.comp, mul_ite]

/-- C4: for each section `ksec ∈ [1, 7]` — with quality target
`qualityTargets ksec` drawn from `(3, 4, 4, 4, 6, 8, 5)` and deviation pair
index `ksec + 3` — and every day `j ∈ [1, m]` and shift `l ∈ [1, t]`, the
cell builds the goal equality
`Σ_i X(i,j,ksec,l) · CompetencyScore(i,ksec) + d⁻_{ksec+3}(j,l)
 − d⁺_{ksec+3}(j,l) = target`, and that constraint is in every successfully
built model. -/
theorem C4_quality_goal_constraints
    (competency : Nat → Option (Nat → Option ℚ)) (q : Nat → ℚ)
    (ksec j l : Nat) (hk1 : 1 ≤ ksec) (hk2 : ksec ≤ s)
    (hj1 : 1 ≤ j) (hj2 : j ≤ m) (hl1 : 1 ≤ l) (hl2 : l ≤ t)
    (hpc : ∀ i', 1 ≤ i' → i' ≤ n →
      person_competency competency i' ksec = some (q i')) :
    ∃ C, qualityCon (person_competency competency) ksec (ksec + 3)
        (qualityTargets ksec) j l = .ok C ∧
      C.rel = RelOp.eq ∧
      C.rhs = LinExpr.constE (qualityTargets ksec) ∧
      (∀ i', 1 ≤ i' → i' ≤ n → C.lhs.coeff (Var.X i' j ksec l) = q i') ∧
      C.lhs.coeff (Var.dNeg (ksec + 3) j l) = 1 ∧
      C.lhs.coeff (Var.dPos (ksec + 3) j l) = -1 ∧
      (∀ L, build competency = .ok L → C ∈ L) := by
  have hterm : ∀ i' ∈ list_range n,
      qualityTerm (person_competency competency) i' j ksec l
        = .ok (LinExpr.smul (q i') (LinExpr.ofVar (Var.X i' j ksec l))) := by
    intro i' hi'
    obtain ⟨h1, h2⟩ := mem_list_range.mp hi'
    unfold qualityTerm
    rw [hpc i' h1 h2]
  have hcon : qualityCon (person_competency competency) ksec (ksec + 3)
      (qualityTargets ksec) j l
      = .ok
        { lhs := LinExpr.sub
            (LinExpr.add
              (LinExpr.sumL ((list_range n).map fun i' =>
                LinExpr.smul (q i') (LinExpr.ofVar (Var.X i' j ksec l))))
              (LinExpr.ofVar (Var.dNeg (ksec + 3) j l)))
            (LinExpr.ofVar (Var.dPos (ksec + 3) j l))
          rel := RelOp.eq
          rhs := LinExpr.constE (qualityTargets ksec) } := by
    unfold qualityCon
    rw [mapM_ok_of_forall_ok hterm]
    rfl
  refine ⟨_, hcon, rfl, rfl, ?_, ?_, ?_, ?_⟩
  · intro i' h1 h2
    simp only [LinExpr.coeff_sub, LinExpr.coeff_add, LinExpr.coeff_ofVar]
    rw [coeff_sumL_map_smul_ofVar,
      sum_ite_single' q (nodup_list_range n)
        (fun a _ b _ hab => by injection hab)
        (mem_list_range.mpr ⟨h1, h2⟩) rfl]
    simp
  · simp only [LinExpr.coeff_sub, LinExpr.coeff_add, LinExpr.coeff_ofVar]
    rw [coeff_sumL_map_smul_ofVar,
      sum_ite_of_not_mem _ _ _ _ fun a _ hne => by cases hne]
    simp
  · simp only [LinExpr.coeff_sub, LinExpr.coeff_add, LinExpr.coeff_ofVar]
    rw [coeff_sumL_map_smul_ofVar,
      sum_ite_of_not_mem _ _ _ _ fun a _ hne => by cases hne]
    have hne : Var.dNeg (ksec + 3) j l ≠ Var.dPos (ksec + 3) j l := by
      intro hne
      cases hne
    rw [if_neg hne]
    simp
  · intro L hL
    obtain ⟨e25, e26, e27, e28, e29, e30, e31, h25, h26, h27, h28, h29, h30,
      h31, rfl⟩ := build_ok_iff.mp hL
    have hjl : (j, l) ∈ dayShiftPairs := by
      show ((j, l) : Nat × Nat)
        ∈ var_matrix_keys (list_range m) (list_range t)
      exact mem_var_matrix_keys.mpr ⟨mem_list_range.mpr ⟨hj1, hj2⟩,
        mem_list_range.mpr ⟨hl1, hl2⟩⟩
    have hk2' : ksec ≤ 7 := by simpa [s] using hk2
    interval_cases ksec
    · have hm := mem_mapM_ok_of_mem h25 hjl hcon
      simp [hm]
    · have hm := mem_mapM_ok_of_mem h26 hjl hcon
      simp [hm]
    · have hm := mem_mapM_ok_of_mem h27 hjl hcon
      simp [hm]
    · have hm := mem_mapM_ok_of_mem h28 hjl hcon
      simp [hm]
    · have hm := mem_mapM_ok_of_mem h29 hjl hcon
      simp [hm]
    · have hm := mem_mapM_ok_of_mem h30 hjl hcon
      simp [hm]
    · have hm := mem_mapM_ok_of_mem h31 hjl hcon
      simp [hm]

/-- Witness for C4 with an everywhere-1 competency table at section 1,
day 1, shift 1. -/
theorem C4_witness :
    ∃ C, qualityCon
        (person_competency fun _ => some fun _ => some (1 : ℚ)) 1 (1 + 3)
        (qualityTargets 1) 1 1 = .ok C ∧ C.rel = RelOp.eq := by
  obtain ⟨C, h1, h2, _⟩ := C4_quality_goal_constraints
    (fun _ => some fun _ => some (1 : ℚ)) (fun _ => (1 : ℚ)) 1 1 1
    (by decide) (by decide) (by decide) (by decide) (by decide) (by decide)
    (fun i' _ _ => rfl)
  exact ⟨C, h1, h2⟩

/-! ## Eager failure on a missing competency score -/

theorem except_map_error {ε α β : Type} (f : α → β) (e : ε) :
    (Except.error e : Except ε α).map f = .error e := rfl

theorem build_error_of_cell {competency : Nat → Option (Nat → Option ℚ)}
    (h : Equation_25_cell (person_competency competency) = .error () ∨
      Equation_26_cell (person_competency competency) = .error () ∨
      Equation_27_cell (person_competency competency) = .error () ∨
      Equation_28_cell (person_competency competency) = .error () ∨
      Equation_29_cell (person_competency competency) = .error () ∨
      Equation_30_cell (person_competency competency) = .error () ∨
      Equation_31_cell (person_competency competency) = .error ()) :
    build competency = .error () := by
  cases hbuild : build competency with
  | error e => cases e; rfl
  | ok L =>
    obtain ⟨e25, e26, e27, e28, e29, e30, e31, h25, h26, h27, h28, h29, h30,
      h31, _⟩ := build_ok_iff.mp hbuild
    rcases h with h | h | h | h | h | h | h <;> simp_all

/-- C9: when the competency lookup lacks a score for a (person, section) pair
referenced by the goal-4..10 constraints, model construction fails at
constraint-construction time, and the pipeline returns that failure without
ever consulting the solver (the outcome is the same for every solver). -/
theorem C9_missing_competency_fails_eagerly
    (competency : Nat → Option (Nat → Option ℚ)) (i0 k0 : Nat)
    (hi1 : 1 ≤ i0) (hi2 : i0 ≤ n) (hk1 : 1 ≤ k0) (hk2 : k0 ≤ s)
    (hmiss : person_competency competency i0 k0 = none) :
    build competency = .error () ∧
    ∀ solver, runPipeline competency solver = .error () := by
  have hterm : ∀ j l : Nat,
      qualityTerm (person_competency competency) i0 j k0 l = .error () := by
    intro j l
    unfold qualityTerm
    rw [hmiss]
  have hcon : ∀ gidx : Nat, ∀ target : ℚ, ∀ j l : Nat,
      qualityCon (person_competency competency) k0 gidx target j l
        = .error () := by
    intro gidx target j l
    unfold qualityCon
    rw [mapM_error_of_mem (mem_list_range.mpr ⟨hi1, hi2⟩) (hterm j l)]
    rfl
  have hcell : ∀ gidx : Nat, ∀ target : ℚ,
      dayShiftPairs.mapM (fun p =>
        qualityCon (person_competency competency) k0 gidx target p.1 p.2)
        = .error () := by
    intro gidx target
    exact mapM_error_of_mem
      (show ((1, 1) : Nat × Nat) ∈ dayShiftPairs from
        mem_var_matrix_keys.mpr
          ⟨mem_list_range.mpr ⟨le_refl 1, by norm_num [m]⟩,
           mem_list_range.mpr ⟨le_refl 1, by norm_num [t]⟩⟩)
      (hcon gidx target 1 1)
  have hbuild : build competency = .error () := by
    apply build_error_of_cell
    have hk2' : k0 ≤ 7 := by simpa [s] using hk2
    interval_cases k0
    · exact Or.inl (hcell 4 3)
    · exact Or.inr (Or.inl (hcell 5 4))
    · exact Or.inr (Or.inr (Or.inl (hcell 6 4)))
    · exact Or.inr (Or.inr (Or.inr (Or.inl (hcell 7 4))))
    · exact Or.inr (Or.inr (Or.inr (Or.inr (Or.inl (hcell 8 6)))))
    · exact Or.inr (Or.inr (Or.inr (Or.inr (Or.inr (Or.inl (hcell 9 8))))))
    · exact Or.inr (Or.inr (Or.inr (Or.inr (Or.inr (Or.inr
        (hcell 10 5))))))
  refine ⟨hbuild, fun solver => ?_⟩
  rw [runPipeline, hbuild]
  rfl

/-- Witness for C9: a competency table whose rows exist but hold no section
score fails construction for person 1, section 1. -/
theorem C9_witness :
    build (fun _ => some fun _ => (none : Option ℚ)) = .error () :=
  (C9_missing_competency_fails_eagerly (fun _ => some fun _ => none) 1 1
    (by decide) (by decide) (by decide) (by decide) rfl).1

/-- C8: the variable-name mapping is a bijection onto its image across all
families — decoding any produced name recovers the originating family and
index tuple, and no two distinct variables (of the same or different
families) share a name. -/
theorem C8_name_roundtrip_injective :
    (∀ v : Var, decodeName (varName v) = some v) ∧
    (∀ v w : Var, varName v = varName w → v = w) := by
  refine ⟨decode_varName, fun v w hvw => ?_⟩
  have hv := decode_varName v
  rw [hvw, decode_varName w] at hv
  exact (Option.some.inj hv).symm

/-- Witness for C8 on concrete tuples. -/
theorem C8_witness :
    decodeName (varName (Var.X 1 2 3 4)) = some (Var.X 1 2 3 4) ∧
    Var.h 5 6 = Var.h 5 6 :=
  ⟨C8_name_roundtrip_injective.1 (Var.X 1 2 3 4),
   C8_name_roundtrip_injective.2 (Var.h 5 6) (Var.h 5 6) rfl⟩

/-! ## The objective characterization -/

/-- The objective the spec describes (§4.3 Objective Assembler): coefficient
1 on both deviation directions of goals 1-3 over all of their index tuples,
coefficient 1 on only the over-achievement direction `d⁺` of goals 4-10 over
every (day, shift) pair, and 0 on every other variable.  Stated from the
spec's words, to be compared against the notebook's `objective`. -/
def objectiveSpecCoeff : Var → ℚ
  | .dNeg 1 a b => if 1 ≤ a ∧ a ≤ n ∧ 1 ≤ b ∧ b ≤ m then 1 else 0
  | .dPos 1 a b => if 1 ≤ a ∧ a ≤ n ∧ 1 ≤ b ∧ b ≤ m then 1 else 0
  | .dNeg 2 a b => if 1 ≤ a ∧ a ≤ n ∧ 1 ≤ b ∧ b ≤ m then 1 else 0
  | .dPos 2 a b => if 1 ≤ a ∧ a ≤ n ∧ 1 ≤ b ∧ b ≤ m then 1 else 0
  | .dNeg3 i => if 1 ≤ i ∧ i ≤ n then 1 else 0
  | .dPos3 i => if 1 ≤ i ∧ i ≤ n then 1 else 0
  | .dPos g a b =>
    if 4 ≤ g ∧ g ≤ 10 ∧ 1 ≤ a ∧ a ≤ m ∧ 1 ≤ b ∧ b ≤ t then 1 else 0
  | _ => 0

theorem coeff_sumL_map_add_ofVar {α : Type} (xs : List α) (f g : α → Var)
    (v : Var) :
    (LinExpr.sumL (xs.map fun a =>
        LinExpr.add (LinExpr.ofVar (f a)) (LinExpr.ofVar (g a)))).coeff v
      = (xs.map fun a => if f a = v then (1 : ℚ) else 0).sum
        + (xs.map fun a => if g a = v then (1 : ℚ) else 0).sum := by
  induction xs with
  | nil => simp [LinExpr.sumL]
  | cons a xs ih =>
    simp only [List.map_cons, List.sum_cons, LinExpr.sumL, List.foldr_cons,
      LinExpr.coeff_add, LinExpr.coeff_ofVar] at ih ⊢
    rw [ih]
    ring

theorem personDayPairs_eq :
    personDayPairs = var_matrix_keys (list_range n) (list_range m) := rfl

theorem dayShiftPairs_eq :
    dayShiftPairs = var_matrix_keys (list_range m) (list_range t) := rfl

theorem objGoal1_coeff (v : Var) :
    objGoal1.coeff v
      = ((var_matrix_keys (list_range n) (list_range m)).map fun p =>
          if Var.dNeg 1 p.1 p.2 = v then (1 : ℚ) else 0).sum
        + ((var_matrix_keys (list_range n) (list_range m)).map fun p =>
          if Var.dPos 1 p.1 p.2 = v then (1 : ℚ) else 0).sum := by
  rw [objGoal1, personDayPairs_eq]
  exact coeff_sumL_map_add_ofVar _ _ _ v

theorem objGoal2_coeff (v : Var) :
    objGoal2.coeff v
      = ((var_matrix_keys (list_range n) (list_range m)).map fun p =>
          if Var.dNeg 2 p.1 p.2 = v then (1 : ℚ) else 0).sum
        + ((var_matrix_keys (list_range n) (list_range m)).map fun p =>
          if Var.dPos 2 p.1 p.2 = v then (1 : ℚ) else 0).sum := by
  rw [objGoal2, personDayPairs_eq]
  exact coeff_sumL_map_add_ofVar _ _ _ v

theorem objGoal3_coeff (v : Var) :
    objGoal3.coeff v
      = ((pyRange 0 n).map fun p =>
          if Var.dNeg3 (p + 1) = v then (1 : ℚ) else 0).sum
        + ((pyRange 0 n).map fun p =>
          if Var.dPos3 (p + 1) = v then (1 : ℚ) else 0).sum := by
  have h3 : objGoal3 = LinExpr.sumL ((pyRange 0 n).map fun p =>
      LinExpr.add (LinExpr.ofVar (Var.dNeg3 (p + 1)))
        (LinExpr.ofVar (Var.dPos3 (p + 1)))) := by
    rw [objGoal3]
    refine congrArg LinExpr.sumL (List.map_congr_left fun p hp => ?_)
    have hpn : p < n := by
      have := mem_pyRange.mp hp
      omega
    rw [d_neg_3_list_getD hpn, d_pos_3_list_getD hpn]
  rw [h3]
  exact coeff_sumL_map_add_ofVar _ _ _ v

theorem objGoalPos_coeff (g : Nat) (v : Var) :
    (objGoalPos g).coeff v
      = ((var_matrix_keys (list_range m) (list_range t)).map fun p =>
          if Var.dPos g p.1 p.2 = v then (1 : ℚ) else 0).sum := by
  rw [objGoalPos, dayShiftPairs_eq]
  exact LinExpr.coeff_sumL_map_ofVar _ _ v

theorem sum_ite_pairs_mem {keys1 keys2 : List Nat} {F : Nat → Nat → Var}
    {x y : Nat} (hnd1 : keys1.Nodup) (hnd2 : keys2.Nodup)
    (hinj : ∀ a b a' b', F a b = F a' b' → a = a' ∧ b = b') :
    ((var_matrix_keys keys1 keys2).map fun p =>
        if F p.1 p.2 = F x y then (1 : ℚ) else 0).sum
      = if x ∈ keys1 ∧ y ∈ keys2 then 1 else 0 := by
  by_cases hmem : x ∈ keys1 ∧ y ∈ keys2
  · rw [if_pos hmem]
    exact sum_ite_single' (fun _ => 1) (nodup_var_matrix_keys hnd1 hnd2)
      (fun p _ q _ hpq => by
        obtain ⟨h1, h2⟩ := hinj _ _ _ _ hpq
        exact Prod.ext h1 h2)
      (mem_var_matrix_keys.mpr ⟨hmem.1, hmem.2⟩) rfl
  · rw [if_neg hmem]
    refine sum_ite_of_not_mem _ _ _ _ fun p hp he => ?_
    obtain ⟨h1, h2⟩ := hinj _ _ _ _ he
    obtain ⟨hm1, hm2⟩ := mem_var_matrix_keys.mp hp
    exact hmem ⟨h1 ▸ hm1, h2 ▸ hm2⟩

theorem sum_ite_goal3 {F : Nat → Var} {i : Nat}
    (hinj : ∀ a a', F a = F a' → a = a') :
    ((pyRange 0 n).map fun p => if F (p + 1) = F i then (1 : ℚ) else 0).sum
      = if 1 ≤ i ∧ i ≤ n then 1 else 0 := by
  by_cases hmem : 1 ≤ i ∧ i ≤ n
  · rw [if_pos hmem]
    refine sum_ite_single' (fun _ => 1) (nodup_pyRange 0 n)
      (fun a _ b _ hab => by have := hinj _ _ hab; omega)
      (show (i - 1) ∈ pyRange 0 n from mem_pyRange.mpr (by omega)) ?_
    congr 1
    omega
  · rw [if_neg hmem]
    refine sum_ite_of_not_mem _ _ _ _ fun p hp he => ?_
    have := hinj _ _ he
    have hpb := mem_pyRange.mp hp
    omega

theorem sum_ite_dNeg_ne {gg g a b : Nat} (hne : gg ≠ g)
    (keys1 keys2 : List Nat) :
    ((var_matrix_keys keys1 keys2).map fun p =>
        if Var.dNeg gg p.1 p.2 = Var.dNeg g a b then (1 : ℚ) else 0).sum
      = 0 :=
  sum_ite_of_not_mem _ _ _ _ fun p _ he => by
    injection he with h1 h2 h3
    exact hne h1

theorem sum_ite_dPos_ne {gg g a b : Nat} (hne : gg ≠ g)
    (keys1 keys2 : List Nat) :
    ((var_matrix_keys keys1 keys2).map fun p =>
        if Var.dPos gg p.1 p.2 = Var.dPos g a b then (1 : ℚ) else 0).sum
      = 0 :=
  sum_ite_of_not_mem _ _ _ _ fun p _ he => by
    injection he with h1 h2 h3
    exact hne h1

theorem objective_matches_spec :
    modelSense = ObjSense.minimize ∧ objective.const = 0 ∧
    ∀ v, objective.coeff v = objectiveSpecCoeff v := by
  have hchunk : ∀ {α : Type} (xs : List α) (f : α → LinExpr),
      (∀ a ∈ xs, (f a).const = 0) → (LinExpr.sumL (xs.map f)).const = 0 := by
    intro α xs f h
    rw [LinExpr.const_sumL, List.map_map]
    refine List.sum_eq_zero fun x hx => ?_
    obtain ⟨a, ha, rfl⟩ := List.mem_map.mp hx
    exact h a ha
  refine ⟨rfl, ?_, ?_⟩
  · simp only [objective, LinExpr.const_add, objGoal1, objGoal2, objGoal3,
      objGoalPos]
    rw [hchunk _ _ fun p _ => by simp [LinExpr.const_add, LinExpr.const_ofVar],
      hchunk _ _ fun p _ => by simp [LinExpr.const_add, LinExpr.const_ofVar],
      hchunk _ _ fun p _ => by simp [LinExpr.const_add, LinExpr.const_ofVar],
      hchunk _ _ fun p _ => by simp [LinExpr.const_ofVar],
      hchunk _ _ fun p _ => by simp [LinExpr.const_ofVar],
      hchunk _ _ fun p _ => by simp [LinExpr.const_ofVar],
      hchunk _ _ fun p _ => by simp [LinExpr.const_ofVar],
      hchunk _ _ fun p _ => by simp [LinExpr.const_ofVar],
      hchunk _ _ fun p _ => by simp [LinExpr.const_ofVar],
      hchunk _ _ fun p _ => by simp [LinExpr.const_ofVar]]
    norm_num
  · intro v
    simp only [objective, LinExpr.coeff_add, objGoal1_coeff, objGoal2_coeff,
      objGoal3_coeff, objGoalPos_coeff]
    cases v with
    | X i j k l => simp [objectiveSpecCoeff]
    | h i j => simp [objectiveSpecCoeff]
    | dNeg3 i =>
      rw [sum_ite_goal3 fun a a' h => by injection h]
      simp [objectiveSpecCoeff]
    | dPos3 i =>
      rw [sum_ite_goal3 fun a a' h => by injection h]
      simp [objectiveSpecCoeff]
    | dNeg g a b =>
      rcases g with _ | _ | _ | g
      · simp [objectiveSpecCoeff]
      · rw [sum_ite_pairs_mem (nodup_list_range n) (nodup_list_range m)
          fun a b a' b' he => by injection he with h1 h2 h3; exact ⟨h2, h3⟩]
        simp [objectiveSpecCoeff, mem_list_range, and_assoc]
      · rw [sum_ite_dNeg_ne (by omega) (list_range n) (list_range m),
          sum_ite_pairs_mem (nodup_list_range n) (nodup_list_range m)
            fun a b a' b' he => by injection he with h1 h2 h3; exact ⟨h2, h3⟩]
        simp [objectiveSpecCoeff, mem_list_range, and_assoc]
      · rw [sum_ite_dNeg_ne (by omega) (list_range n) (list_range m),
          sum_ite_dNeg_ne (by omega) (list_range n) (list_range m)]
        simp [objectiveSpecCoeff]
    | dPos g a b =>
      rcases g with _ | _ | _ | _ | _ | _ | _ | _ | _ | _ | _ | g
      · simp [objectiveSpecCoeff]
      · rw [sum_ite_pairs_mem (nodup_list_range n) (nodup_list_range m)
          fun a b a' b' he => by injection he with h1 h2 h3; exact ⟨h2, h3⟩]
        simp [objectiveSpecCoeff, mem_list_range, and_assoc]
      · rw [sum_ite_dPos_ne (by omega) (list_range n) (list_range m),
          sum_ite_pairs_mem (nodup_list_range n) (nodup_list_range m)
            fun a b a' b' he => by injection he with h1 h2 h3; exact ⟨h2, h3⟩]
        simp [objectiveSpecCoeff, mem_list_range, and_assoc]
      · rw [sum_ite_dPos_ne (by omega) (list_range n) (list_range m),
          sum_ite_dPos_ne (by omega) (list_range n) (list_range m)]
        simp [objectiveSpecCoeff]
      · rw [sum_ite_dPos_ne (by omega) (list_range n) (list_range m),
          sum_ite_dPos_ne (by omega) (list_range n) (list_range m),
          sum_ite_pairs_mem (nodup_list_range m) (nodup_list_range t)
            fun a b a' b' he => by injection he with h1 h2 h3; exact ⟨h2, h3⟩]
        simp [objectiveSpecCoeff, mem_list_range, and_assoc]
      · rw [sum_ite_dPos_ne (by omega) (list_range n) (list_range m),
          sum_ite_dPos_ne (by omega) (list_range n) (list_range m),
          sum_ite_pairs_mem (nodup_list_range m) (nodup_list_range t)
            fun a b a' b' he => by injection he with h1 h2 h3; exact ⟨h2, h3⟩]
        simp [objectiveSpecCoeff, mem_list_range, and_assoc]
      · rw [sum_ite_dPos_ne (by omega) (list_range n) (list_range m),
          sum_ite_dPos_ne (by omega) (list_range n) (list_range m),
          sum_ite_pairs_mem (nodup_list_range m) (nodup_list_range t)
            fun a b a' b' he => by injection he with h1 h2 h3; exact ⟨h2, h3⟩]
        simp [objectiveSpecCoeff, mem_list_range, and_assoc]
      · rw [sum_ite_dPos_ne (by omega) (list_range n) (list_range m),
          sum_ite_dPos_ne (by omega) (list_range n) (list_range m),
          sum_ite_pairs_mem (nodup_list_range m) (nodup_list_range t)
            fun a b a' b' he => by injection he with h1 h2 h3; exact ⟨h2, h3⟩]
        simp [objectiveSpecCoeff, mem_list_range, and_assoc]
      · rw [sum_ite_dPos_ne (by omega) (list_range n) (list_range m),
          sum_ite_dPos_ne (by omega) (list_range n) (list_range m),
          sum_ite_pairs_mem (nodup_list_range m) (nodup_list_range t)
            fun a b a' b' he => by injection he with h1 h2 h3; exact ⟨h2, h3⟩]
        simp [objectiveSpecCoeff, mem_list_range, and_assoc]
      · rw [sum_ite_dPos_ne (by omega) (list_range n) (list_range m),
          sum_ite_dPos_ne (by omega) (list_range n) (list_range m),
          sum_ite_pairs_mem (nodup_list_range m) (nodup_list_range t)
            fun a b a' b' he => by injection he with h1 h2 h3; exact ⟨h2, h3⟩]
        simp [objectiveSpecCoeff, mem_list_range, and_assoc]
      · rw [sum_ite_dPos_ne (by omega) (list_range n) (list_range m),
          sum_ite_dPos_ne (by omega) (list_range n) (list_range m),
          sum_ite_pairs_mem (nodup_list_range m) (nodup_list_range t)
            fun a b a' b' he => by injection he with h1 h2 h3; exact ⟨h2, h3⟩]
        simp [objectiveSpecCoeff, mem_list_range, and_assoc]
      · rw [sum_ite_dPos_ne (by omega) (list_range n) (list_range m),
          sum_ite_dPos_ne (by omega) (list_range n) (list_range m),
          sum_ite_dPos_ne (by omega) (list_range m) (list_range t),
          sum_ite_dPos_ne (by omega) (list_range m) (list_range t),
          sum_ite_dPos_ne (by omega) (list_range m) (list_range t),
          sum_ite_dPos_ne (by omega) (list_range m) (list_range t),
          sum_ite_dPos_ne (by omega) (list_range m) (list_range t),
          sum_ite_dPos_ne (by omega) (list_range m) (list_range t),
          sum_ite_dPos_ne (by omega) (list_range m) (list_range t)]
        rw [show objectiveSpecCoeff (Var.dPos (g + 11) a b)
          = if 4 ≤ g + 11 ∧ g + 11 ≤ 10 ∧ 1 ≤ a ∧ a ≤ m ∧ 1 ≤ b ∧ b ≤ t
            then 1 else 0 from rfl]
        rw [if_neg (by omega)]
        simp

/-- C3: the scalar objective handed to `model.minimize` is precisely the
unweighted sum of both deviation directions `d⁻ + d⁺` of goals 1, 2 and 3
over all of their index tuples, plus only the over-achievement deviation
`d⁺` (never `d⁻`) of each of goals 4-10 over every (day, shift) pair: the
sense is minimization, the objective has no constant term, and its
coefficient on every variable agrees with the spec-side description
`objectiveSpecCoeff`. -/
theorem C3_objective_characterization :
    modelSense = ObjSense.minimize ∧ objective.const = 0 ∧
    ∀ v, objective.coeff v = objectiveSpecCoeff v :=
  objective_matches_spec

/-! ## Variables outside every constraint (goal-1/2 deviations at the last
two days) -/

theorem d_neg_3_list_getD_ctor (p : Nat) :
    ∃ x, d_neg_3_list.getD p (Var.dNeg3 0) = Var.dNeg3 x := by
  by_cases hp : p < n
  · exact ⟨p + 1, d_neg_3_list_getD hp⟩
  · refine ⟨0, ?_⟩
    rw [List.getD_eq_getElem?_getD, List.getElem?_eq_none, Option.getD_none]
    simp only [d_neg_3_list, List.length_map, length_pyRange]
    omega

theorem d_pos_3_list_getD_ctor (p : Nat) :
    ∃ x, d_pos_3_list.getD p (Var.dPos3 0) = Var.dPos3 x := by
  by_cases hp : p < n
  · exact ⟨p + 1, d_pos_3_list_getD hp⟩
  · refine ⟨0, ?_⟩
    rw [List.getD_eq_getElem?_getD, List.getElem?_eq_none, Option.getD_none]
    simp only [d_pos_3_list, List.length_map, length_pyRange]
    omega

/-- A variable that is not an assignment, leave, goal-3, or in-window
goal-1/2 deviation variable has coefficient 0 in both sides of every
Equation 6-24 constraint. -/
theorem fixed_coeff_zero_of_shape {v : Var}
    (hNonX : ∀ a b c d, v ≠ Var.X a b c d)
    (hNonH : ∀ a b, v ≠ Var.h a b)
    (hNon3 : ∀ x, v ≠ Var.dNeg3 x ∧ v ≠ Var.dPos3 x)
    (hNonD1 : ∀ i' j', j' ≤ m - 2 →
      v ≠ Var.dNeg 1 i' j' ∧ v ≠ Var.dPos 1 i' j')
    (hNonD2 : ∀ i' j', j' ≤ m - 2 →
      v ≠ Var.dNeg 2 i' j' ∧ v ≠ Var.dPos 2 i' j') :
    ∀ c ∈ fixedConstraints, c.lhs.coeff v = 0 ∧ c.rhs.coeff v = 0 := by
  have hXpairs : ∀ (keys1 keys2 : List Nat) (F : Nat → Nat → Var),
      (∀ a b, ∃ x y z w, F a b = Var.X x y z w) →
      (LinExpr.sumL ((var_matrix_keys keys1 keys2).map fun p =>
        LinExpr.ofVar (F p.1 p.2))).coeff v = 0 := by
    intro keys1 keys2 F hF
    refine coeff_sumL_ofVar_of_not_mem fun p _ he => ?_
    obtain ⟨x, y, z, w, hxy⟩ := hF p.1 p.2
    rw [hxy] at he
    exact hNonX x y z w he.symm
  have hXsingle : ∀ (keys : List Nat) (F : Nat → Var),
      (∀ a, ∃ x y z w, F a = Var.X x y z w) →
      (LinExpr.sumL (keys.map fun k => LinExpr.ofVar (F k))).coeff v = 0 := by
    intro keys F hF
    refine coeff_sumL_ofVar_of_not_mem fun a _ he => ?_
    obtain ⟨x, y, z, w, hxy⟩ := hF a
    rw [hxy] at he
    exact hNonX x y z w he.symm
  have hss : ∀ i' j',
      (LinExpr.sumL ((list_range s).flatMap fun k =>
        (list_range t).map fun l =>
          LinExpr.ofVar (Var.X i' j' k l))).coeff v = 0 := fun i' j' =>
    sectionShiftSum_coeff_eq_zero fun k l => hNonX i' j' k l
  intro c hc
  rw [fixedConstraints] at hc
  simp only [List.mem_append] at hc
  rcases hc with ((((((((((((((hc | hc) | hc) | hc) | hc) | hc) | hc) | hc) | hc) | hc) | hc) | hc) | hc) | hc) | hc) | hc
  -- the seven coverage cells
  · simp only [Equation_6_cell, coverageCell, List.mem_flatMap,
      List.mem_map] at hc
    obtain ⟨j', _, l', _, rfl⟩ := hc
    refine ⟨?_, by simp [coverageCon]⟩
    simp only [coverageCon]
    exact coeff_sumL_ofVar_of_not_mem fun a _ he => hNonX _ _ _ _ he.symm
  · simp only [Equation_7_cell, coverageCell, List.mem_flatMap,
      List.mem_map] at hc
    obtain ⟨j', _, l', _, rfl⟩ := hc
    refine ⟨?_, by simp [coverageCon]⟩
    exact coeff_sumL_ofVar_of_not_mem fun a _ he => hNonX _ _ _ _ he.symm
  · simp only [Equation_8_cell, coverageCell, List.mem_flatMap,
      List.mem_map] at hc
    obtain ⟨j', _, l', _, rfl⟩ := hc
    refine ⟨?_, by simp [coverageCon]⟩
    exact coeff_sumL_ofVar_of_not_mem fun a _ he => hNonX _ _ _ _ he.symm
  · simp only [Equation_9_cell, coverageCell, List.mem_flatMap,
      List.mem_map] at hc
    obtain ⟨j', _, l', _, rfl⟩ := hc
    refine ⟨?_, by simp [coverageCon]⟩
    exact coeff_sumL_ofVar_of_not_mem fun a _ he => hNonX _ _ _ _ he.symm
  · simp only [Equation_10_cell, coverageCell, List.mem_flatMap,
      List.mem_map] at hc
    obtain ⟨j', _, l', _, rfl⟩ := hc
    refine ⟨?_, by simp [coverageCon]⟩
    exact coeff_sumL_ofVar_of_not_mem fun a _ he => hNonX _ _ _ _ he.symm
  · simp only [Equation_11_cell, coverageCell, List.mem_flatMap,
      List.mem_map] at hc
    obtain ⟨j', _, l', _, rfl⟩ := hc
    refine ⟨?_, by simp [coverageCon]⟩
    exact coeff_sumL_ofVar_of_not_mem fun a _ he => hNonX _ _ _ _ he.symm
  · simp only [Equation_12_cell, coverageCell, List.mem_flatMap,
      List.mem_map] at hc
    obtain ⟨j', _, l', _, rfl⟩ := hc
    refine ⟨?_, by simp [coverageCon]⟩
    exact coeff_sumL_ofVar_of_not_mem fun a _ he => hNonX _ _ _ _ he.symm
  -- Equation 13
  · simp only [Equation_13_cell, List.mem_flatMap, List.mem_map] at hc
    obtain ⟨i', _, j', _, rfl⟩ := hc
    exact ⟨hss i' j', by simp [Equation_13_con]⟩
  -- Equation 14
  · simp only [Equation_14_cell, List.mem_flatMap, List.mem_map] at hc
    obtain ⟨i', _, j', _, rfl⟩ := hc
    refine ⟨hss i' j', ?_⟩
    simp only [Equation_14_con, LinExpr.coeff_sub, LinExpr.coeff_constE,
      LinExpr.coeff_ofVar]
    rw [if_neg fun he => hNonH i' j' he.symm]
    ring
  -- Equations 15/16
  · simp only [Equations_15_16_cell, List.mem_flatMap, List.mem_cons,
      List.not_mem_nil, or_false] at hc
    obtain ⟨i', _, j', _, rfl | rfl⟩ := hc
    · exact ⟨Equation_15_con_coeff_other fun b => hNonH i' b,
        by simp [Equation_15_con]⟩
    · refine ⟨?_, by simp [Equation_16_con]⟩
      rw [Equation_16_con_lhs]
      exact Equation_15_con_coeff_other fun b => hNonH i' b
  -- Equations 17/18
  · simp only [Equations_17_18_cell, List.mem_flatMap, List.mem_cons,
      List.not_mem_nil, or_false] at hc
    obtain ⟨i', _, rfl | rfl⟩ := hc
    · refine ⟨?_, by simp [Equation_17_con]⟩
      simp only [Equation_17_con]
      rw [flatMap_map_eq_map_pairs]
      exact hXpairs _ _ _ fun a b => ⟨i', a, b, 1, rfl⟩
    · refine ⟨?_, by simp [Equation_18_con]⟩
      simp only [Equation_18_con]
      rw [flatMap_map_eq_map_pairs]
      exact hXpairs _ _ _ fun a b => ⟨i', a, b, 2, rfl⟩
  -- Equations 19/20
  · simp only [Equations_19_20_cell, List.mem_flatMap, List.mem_cons,
      List.not_mem_nil, or_false] at hc
    obtain ⟨i', _, rfl | rfl⟩ := hc
    · refine ⟨?_, by simp [Equation_19_con]⟩
      simp only [Equation_19_con]
      rw [flatMap_map_eq_map_pairs]
      exact hXpairs _ _ _ fun a b => ⟨i', a, b, 1, rfl⟩
    · refine ⟨?_, by simp [Equation_20_con]⟩
      simp only [Equation_20_con]
      rw [flatMap_map_eq_map_pairs]
      exact hXpairs _ _ _ fun a b => ⟨i', a, b, 2, rfl⟩
  -- Equation 21
  · simp only [Equation_21_cell, List.mem_flatMap, List.mem_map] at hc
    obtain ⟨i', _, j', _, rfl⟩ := hc
    refine ⟨?_, by simp [Equation_21_con]⟩
    simp only [Equation_21_con, LinExpr.coeff_add]
    rw [hXsingle _ _ fun k => ⟨i', j', k, 2, rfl⟩,
      hXsingle _ _ fun k => ⟨i', j' + 1, k, 1, rfl⟩]
    ring
  -- Equation 22
  · simp only [Equation_22_cell, List.mem_flatMap, List.mem_map] at hc
    obtain ⟨i', _, j', hj', rfl⟩ := hc
    have hj2 : j' ≤ m - 2 := (mem_list_range.mp hj').2
    refine ⟨?_, by simp [Equation_22_con]⟩
    simp only [Equation_22_con, LinExpr.coeff_sub, LinExpr.coeff_add,
      LinExpr.coeff_ofVar]
    rw [hss i' (j' + 1),
      if_neg fun he => hNonH i' j' he.symm,
      if_neg fun he => hNonH i' (j' + 2) he.symm,
      if_neg fun he => (hNonD1 i' j' hj2).1 he.symm,
      if_neg fun he => (hNonD1 i' j' hj2).2 he.symm]
    ring
  -- Equation 23
  · simp only [Equation_23_cell, List.mem_flatMap, List.mem_map] at hc
    obtain ⟨i', _, j', hj', rfl⟩ := hc
    have hj2 : j' ≤ m - 2 := (mem_list_range.mp hj').2
    refine ⟨?_, by simp [Equation_23_con]⟩
    simp only [Equation_23_con, LinExpr.coeff_sub, LinExpr.coeff_add,
      LinExpr.coeff_ofVar]
    rw [hss i' j', hss i' (j' + 1),
      if_neg fun he => hNonH i' (j' + 1) he.symm,
      if_neg fun he => (hNonD2 i' j' hj2).1 he.symm,
      if_neg fun he => (hNonD2 i' j' hj2).2 he.symm]
    ring
  -- Equation 24
  · simp only [Equation_24_cell, List.mem_map] at hc
    obtain ⟨i', _, rfl⟩ := hc
    refine ⟨?_, by simp [Equation_24_con]⟩
    simp only [Equation_24_con, LinExpr.coeff_sub, LinExpr.coeff_add,
      LinExpr.coeff_ofVar]
    obtain ⟨x3, hx3⟩ := d_neg_3_list_getD_ctor (i' - 1)
    obtain ⟨y3, hy3⟩ := d_pos_3_list_getD_ctor (i' - 1)
    rw [flatMap3_map_eq_map_triples, hx3, hy3,
      if_neg fun he => (hNon3 x3).1 he.symm,
      if_neg fun he => (hNon3 y3).2 he.symm]
    have hX3 : (LinExpr.sumL (((list_range m).flatMap fun a =>
        (list_range s).flatMap fun b =>
          (list_range t).map fun c => (a, b, c)).map fun q =>
            LinExpr.ofVar (Var.X i' q.1 q.2.1 q.2.2))).coeff v = 0 :=
      coeff_sumL_ofVar_of_not_mem fun q _ he => hNonX _ _ _ _ he.symm
    rw [hX3]
    ring

theorem qualityCon_ok_coeff_d {pc : Nat → Nat → Option ℚ}
    {ksec gidx : Nat} {target : ℚ} {j' l' : Nat} {C : Constraint}
    (h : qualityCon pc ksec gidx target j' l' = .ok C) {g i j : Nat}
    (hg : gidx ≠ g) :
    C.lhs.coeff (Var.dNeg g i j) = 0 ∧ C.lhs.coeff (Var.dPos g i j) = 0 ∧
    C.rhs.coeff (Var.dNeg g i j) = 0 ∧ C.rhs.coeff (Var.dPos g i j) = 0 := by
  unfold qualityCon at h
  cases hmm : (list_range n).mapM fun i'' => qualityTerm pc i'' j' ksec l' with
  | error e => rw [hmm] at h; cases h
  | ok terms =>
    rw [hmm] at h
    have hC := Except.ok.inj h
    have hterms : ∀ e ∈ terms, ∀ w : Var,
        (∀ a b c d, w ≠ Var.X a b c d) → e.coeff w = 0 := by
      intro e he w hw
      obtain ⟨i'', _, hq⟩ := mem_of_mapM_ok hmm e he
      unfold qualityTerm at hq
      cases hpc : pc i'' ksec with
      | none => rw [hpc] at hq; cases hq
      | some qv =>
        rw [hpc] at hq
        have he2 := Except.ok.inj hq
        rw [← he2]
        simp only [LinExpr.coeff_smul, LinExpr.coeff_ofVar]
        rw [if_neg fun hx => hw _ _ _ _ hx.symm]
        ring
    have hsum : ∀ w : Var, (∀ a b c d, w ≠ Var.X a b c d) →
        (LinExpr.sumL terms).coeff w = 0 := by
      intro w hw
      rw [LinExpr.coeff_sumL]
      refine List.sum_eq_zero fun x hx => ?_
      obtain ⟨e, he, rfl⟩ := List.mem_map.mp hx
      exact hterms e he w hw
    rw [← hC]
    simp only [LinExpr.coeff_sub, LinExpr.coeff_add, LinExpr.coeff_ofVar]
    rw [hsum (Var.dNeg g i j) (fun a b c d he => by cases he),
      hsum (Var.dPos g i j) (fun a b c d he => by cases he),
      if_neg (show Var.dNeg gidx j' l' ≠ Var.dNeg g i j from
        fun he => by injection he with h1 h2 h3; exact hg h1),
      if_neg (show Var.dPos gidx j' l' ≠ Var.dPos g i j from
        fun he => by injection he with h1 h2 h3; exact hg h1),
      if_neg (show Var.dNeg gidx j' l' ≠ Var.dPos g i j from
        fun he => by cases he),
      if_neg (show Var.dPos gidx j' l' ≠ Var.dNeg g i j from
        fun he => by cases he)]
    refine ⟨by ring, by ring, by simp, by simp⟩

/-- C10: the goal-1/2 deviation pairs are created for every (person, day)
pair with day up to `m` (their creation key set is `personDayKeys`), but the
goal-1/2 equality cells stop at day `m - 2`; consequently, for every person
`i ∈ [1, n]`, goal `g ∈ {1, 2}` and day `j ∈ {m-1, m}`, the deviation
variables `d⁻_g(i,j)` and `d⁺_g(i,j)` carry coefficient 1 in the minimized
objective yet have coefficient 0 on both sides of every constraint of any
successfully built model. -/
theorem C10_orphan_goal12_deviations (g i j : Nat)
    (hg : g = 1 ∨ g = 2) (hi1 : 1 ≤ i) (hi2 : i ≤ n)
    (hj : j = m - 1 ∨ j = m) :
    (i, j) ∈ personDayKeys ∧
    objective.coeff (Var.dNeg g i j) = 1 ∧
    objective.coeff (Var.dPos g i j) = 1 ∧
    (∀ competency L, build competency = .ok L → ∀ c ∈ L,
      c.lhs.coeff (Var.dNeg g i j) = 0 ∧ c.rhs.coeff (Var.dNeg g i j) = 0 ∧
      c.lhs.coeff (Var.dPos g i j) = 0 ∧
      c.rhs.coeff (Var.dPos g i j) = 0) := by
  have hjm : 1 ≤ j ∧ j ≤ m ∧ m - 2 < j := by
    rcases hj with rfl | rfl <;> norm_num [m]
  refine ⟨?_, ?_, ?_, ?_⟩
  · rw [personDayKeys, mem_var_matrix_keys, mem_pyRange, mem_pyRange]
    omega
  · rw [objective_matches_spec.2.2]
    rcases hg with rfl | rfl
    · rw [show objectiveSpecCoeff (Var.dNeg 1 i j)
          = if 1 ≤ i ∧ i ≤ n ∧ 1 ≤ j ∧ j ≤ m then (1 : ℚ) else 0 from rfl,
        if_pos ⟨hi1, hi2, hjm.1, hjm.2.1⟩]
    · rw [show objectiveSpecCoeff (Var.dNeg 2 i j)
          = if 1 ≤ i ∧ i ≤ n ∧ 1 ≤ j ∧ j ≤ m then (1 : ℚ) else 0 from rfl,
        if_pos ⟨hi1, hi2, hjm.1, hjm.2.1⟩]
  · rw [objective_matches_spec.2.2]
    rcases hg with rfl | rfl
    · rw [show objectiveSpecCoeff (Var.dPos 1 i j)
          = if 1 ≤ i ∧ i ≤ n ∧ 1 ≤ j ∧ j ≤ m then (1 : ℚ) else 0 from rfl,
        if_pos ⟨hi1, hi2, hjm.1, hjm.2.1⟩]
    · rw [show objectiveSpecCoeff (Var.dPos 2 i j)
          = if 1 ≤ i ∧ i ≤ n ∧ 1 ≤ j ∧ j ≤ m then (1 : ℚ) else 0 from rfl,
        if_pos ⟨hi1, hi2, hjm.1, hjm.2.1⟩]
  · intro competency L hL c hc
    obtain ⟨e25, e26, e27, e28, e29, e30, e31, h25, h26, h27, h28, h29, h30,
      h31, rfl⟩ := build_ok_iff.mp hL
    have hND : ∀ c' ∈ fixedConstraints,
        c'.lhs.coeff (Var.dNeg g i j) = 0 ∧
        c'.rhs.coeff (Var.dNeg g i j) = 0 :=
      fixed_coeff_zero_of_shape
        (fun a b cc d he => nomatch he)
        (fun a b he => nomatch he)
        (fun x => ⟨(fun he => nomatch he), fun he => nomatch he⟩)
        (fun i' j' hj' =>
          ⟨(fun he => by injection he with h1 h2 h3; omega),
           fun he => nomatch he⟩)
        (fun i' j' hj' =>
          ⟨(fun he => by injection he with h1 h2 h3; omega),
           fun he => nomatch he⟩)
    have hPD : ∀ c' ∈ fixedConstraints,
        c'.lhs.coeff (Var.dPos g i j) = 0 ∧
        c'.rhs.coeff (Var.dPos g i j) = 0 :=
      fixed_coeff_zero_of_shape
        (fun a b cc d he => nomatch he)
        (fun a b he => nomatch he)
        (fun x => ⟨(fun he => nomatch he), fun he => nomatch he⟩)
        (fun i' j' hj' =>
          ⟨(fun he => nomatch he),
           (fun he => by injection he with h1 h2 h3; omega)⟩)
        (fun i' j' hj' =>
          ⟨(fun he => nomatch he),
           (fun he => by injection he with h1 h2 h3; omega)⟩)
    have hq : ∀ (ys : List Constraint) (ksec gidx : Nat) (target : ℚ),
        dayShiftPairs.mapM (fun p =>
          qualityCon (person_competency competency) ksec gidx target p.1 p.2)
          = .ok ys → gidx ≠ g → c ∈ ys →
        c.lhs.coeff (Var.dNeg g i j) = 0 ∧
        c.rhs.coeff (Var.dNeg g i j) = 0 ∧
        c.lhs.coeff (Var.dPos g i j) = 0 ∧
        c.rhs.coeff (Var.dPos g i j) = 0 := by
      intro ys ksec gidx target hys hgid hcm
      obtain ⟨p, _, hp⟩ := mem_of_mapM_ok hys c hcm
      obtain ⟨q1, q2, q3, q4⟩ := qualityCon_ok_coeff_d hp hgid
      exact ⟨q1, q3, q2, q4⟩
    simp only [List.mem_append] at hc
    rcases hc with ((((((hc | hc) | hc) | hc) | hc) | hc) | hc) | hc
    · exact ⟨(hND c hc).1, (hND c hc).2, (hPD c hc).1, (hPD c hc).2⟩
    · exact hq e25 1 4 3 h25 (by omega) hc
    · exact hq e26 2 5 4 h26 (by omega) hc
    · exact hq e27 3 6 4 h27 (by omega) hc
    · exact hq e28 4 7 4 h28 (by omega) hc
    · exact hq e29 5 8 6 h29 (by omega) hc
    · exact hq e30 6 9 8 h30 (by omega) hc
    · exact hq e31 7 10 5 h31 (by omega) hc

/-- Witness for C10 at goal 1, person 1, day 29 = m - 1. -/
theorem C10_witness :
    ((1, 29) : Nat × Nat) ∈ personDayKeys ∧
    objective.coeff (Var.dNeg 1 1 29) = 1 := by
  have h := C10_orphan_goal12_deviations 1 1 29 (Or.inl rfl) (by decide)
    (by decide) (Or.inl (by decide))
  exact ⟨h.1, h.2.1⟩

end ShiftScheduler
